import Mathlib

/-!
Shallow embedding of the JCAMP-DX-derived parameter parser of
`brkraw/api/pvobj/parser.py` (classes `Parser` and `Parameter`), together
with theorems settling the frozen claims about the natural-language spec.

Modelling conventions:
* Python strings are `List Char` (the caller-supplied lines are assumed
  newline-free: the caller splits the file on newlines).
* Python values flowing through the parser are `PyVal`:
  `None` is `pnull`, ints are `pint`, floats are `pfloat` carrying the
  exact decimal rational (binary-float rounding is not modelled; every
  literal reaching `float()` here is a short decimal, where Python's
  round-trip `str` equals the exact decimal rendering), strings are
  `pstr`, lists are `plist`, and the `level_N` dictionary produced by
  `process_complexarray` is `pcplx` (levels in insertion order).
  A numpy array produced by the final reshape is modelled as the
  equivalent nested `plist` structure.
* Python exceptions (ValueError from `int`/`float`, TypeError/ValueError
  from `np.asarray(...).reshape`, AttributeError from `.split` on a
  non-string) are modelled with `Except PyErr`.
* Regular expressions are translated to executable matchers on
  `List Char` following the exact patterns at the top of the source file.
-/

set_option autoImplicit false

namespace Brk

/-- Python exception kinds raised by the code paths modelled here. -/
inductive PyErr where
  | valueError
  | typeError
  | attributeError
  | keyError
  deriving DecidableEq, Repr

/-- A Python value as it flows through `Parser`/`Parameter`:
`pnull` is `None`, `pfloat` carries the exact decimal rational of the
float, `pcplx` is the `level_N` dictionary of `process_complexarray`
(one entry per nesting level in insertion order, each level a `plist`
of rows), and a numpy array is represented by the equivalent nested
`plist`. -/
inductive PyVal where
  | pnull
  | pint (n : Int)
  | pfloat (q : Rat)
  | pstr (s : List Char)
  | plist (xs : List PyVal)
  | pcplx (levels : List PyVal)
  deriving Repr

mutual

def PyVal.decEq : (a b : PyVal) → Decidable (a = b)
  | .pnull, .pnull => isTrue rfl
  | .pint a, .pint b =>
    match inferInstanceAs (Decidable (a = b)) with
    | isTrue h => isTrue (h ▸ rfl)
    | isFalse h => isFalse (fun hh => h (PyVal.pint.inj hh))
  | .pfloat a, .pfloat b =>
    match inferInstanceAs (Decidable (a = b)) with
    | isTrue h => isTrue (h ▸ rfl)
    | isFalse h => isFalse (fun hh => h (PyVal.pfloat.inj hh))
  | .pstr a, .pstr b =>
    match inferInstanceAs (Decidable (a = b)) with
    | isTrue h => isTrue (h ▸ rfl)
    | isFalse h => isFalse (fun hh => h (PyVal.pstr.inj hh))
  | .plist a, .plist b =>
    match PyVal.decEqList a b with
    | isTrue h => isTrue (h ▸ rfl)
    | isFalse h => isFalse (fun hh => h (PyVal.plist.inj hh))
  | .pcplx a, .pcplx b =>
    match PyVal.decEqList a b with
    | isTrue h => isTrue (h ▸ rfl)
    | isFalse h => isFalse (fun hh => h (PyVal.pcplx.inj hh))
  | .pnull, .pint _ | .pnull, .pfloat _ | .pnull, .pstr _
  | .pnull, .plist _ | .pnull, .pcplx _
  | .pint _, .pnull | .pint _, .pfloat _ | .pint _, .pstr _
  | .pint _, .plist _ | .pint _, .pcplx _
  | .pfloat _, .pnull | .pfloat _, .pint _ | .pfloat _, .pstr _
  | .pfloat _, .plist _ | .pfloat _, .pcplx _
  | .pstr _, .pnull | .pstr _, .pint _ | .pstr _, .pfloat _
  | .pstr _, .plist _ | .pstr _, .pcplx _
  | .plist _, .pnull | .plist _, .pint _ | .plist _, .pfloat _
  | .plist _, .pstr _ | .plist _, .pcplx _
  | .pcplx _, .pnull | .pcplx _, .pint _ | .pcplx _, .pfloat _
  | .pcplx _, .pstr _ | .pcplx _, .plist _ => isFalse (fun h => by cases h)

def PyVal.decEqList : (a b : List PyVal) → Decidable (a = b)
  | [], [] => isTrue rfl
  | x :: xs, y :: ys =>
    match PyVal.decEq x y, PyVal.decEqList xs ys with
    | isTrue h1, isTrue h2 => isTrue (by rw [h1, h2])
    | isFalse h1, _ => isFalse (fun hh => h1 (List.cons.inj hh).1)
    | _, isFalse h2 => isFalse (fun hh => h2 (List.cons.inj hh).2)
  | [], _ :: _ => isFalse (fun h => by cases h)
  | _ :: _, [] => isFalse (fun h => by cases h)

end

instance : DecidableEq PyVal := PyVal.decEq

instance {ε α : Type} [DecidableEq ε] [DecidableEq α] : DecidableEq (Except ε α)
  | .error e, .error f =>
    match inferInstanceAs (Decidable (e = f)) with
    | isTrue h => isTrue (h ▸ rfl)
    | isFalse h => isFalse (fun hh => h (Except.error.inj hh))
  | .ok a, .ok b =>
    match inferInstanceAs (Decidable (a = b)) with
    | isTrue h => isTrue (h ▸ rfl)
    | isFalse h => isFalse (fun hh => h (Except.ok.inj hh))
  | .error _, .ok _ => isFalse (fun h => by cases h)
  | .ok _, .error _ => isFalse (fun h => by cases h)

namespace PyVal

def isStr : PyVal → Bool
  | pstr _ => true
  | _ => false

def isList : PyVal → Bool
  | plist _ => true
  | _ => false

end PyVal

/-- The shape sentinel `-1` used throughout the source. -/
def sentinel : PyVal := PyVal.pint (-1)

/-- Characters removed by Python's `str.strip()`. -/
def pySpace (c : Char) : Bool :=
  c = ' ' || c = '\t' || c = '\n' || c = '\r' || c = '\x0b' || c = '\x0c'

/-- Python `str.strip()`. -/
def pyStrip (cs : List Char) : List Char :=
  ((cs.dropWhile pySpace).reverse.dropWhile pySpace).reverse

/-- Python `str.split(sep)` for a one-character separator: keeps empty
pieces, always returns at least one piece. -/
def splitOnChar (sep : Char) : List Char → List (List Char)
  | [] => [[]]
  | c :: r =>
    let ps := splitOnChar sep r
    if c = sep then [] :: ps
    else
      match ps with
      | p :: t => (c :: p) :: t
      | [] => [[c]]

/-- Strip one leading occurrence of `c` (the regex `c?`). -/
def dropLead (c : Char) (cs : List Char) : List Char :=
  match cs with
  | [] => []
  | a :: t => if a = c then t else a :: t

/-- Python numeric-literal sign handling: one optional `+`/`-`. -/
def signOf (cs : List Char) : Int × List Char :=
  match cs with
  | [] => (1, [])
  | a :: t => if a = '-' then (-1, t) else if a = '+' then (1, t) else (1, a :: t)

/-- Numeric value of a digit string (most significant first). -/
def natOfDigits (cs : List Char) : Nat :=
  cs.foldl (fun acc c => 10 * acc + (c.toNat - '0'.toNat)) 0

/-- Python `int(s)` on an already-stripped string: one optional sign then
at least one digit (digit grouping underscores never occur in the inputs
reaching `int` here). `none` models the ValueError. -/
def pyInt (cs : List Char) : Option Int :=
  if (signOf cs).2 ≠ [] ∧ (signOf cs).2.all Char.isDigit then
    some ((signOf cs).1 * (natOfDigits (signOf cs).2 : Int))
  else none

/-- After the integer part of a float literal: the fractional digits, if a
dot follows. -/
def fracOf (r1 : List Char) : List Char :=
  match r1 with
  | '.' :: t => t.takeWhile Char.isDigit
  | _ => []

/-- After the integer part of a float literal: what is left once the dot
and the fractional digits are consumed. -/
def restOf (r1 : List Char) : List Char :=
  match r1 with
  | '.' :: t => t.dropWhile Char.isDigit
  | t => t

/-- Whether a dot follows the integer part of a float literal. -/
def hasDotOf (r1 : List Char) : Bool :=
  match r1 with
  | '.' :: _ => true
  | _ => false

/-- The exponent part of a Python float literal: empty, or `e`/`E`, an
optional sign and digits; `mant` is the signed mantissa read so far and
`fl` the number of fractional digits. -/
def pyFloatExp (mant : Int) (fl : Nat) : List Char → Option Rat
  | [] => some (mkRat mant (10 ^ fl))
  | e :: r3 =>
    if e = 'e' ∨ e = 'E' then
      if (signOf r3).2 ≠ [] ∧ (signOf r3).2.all Char.isDigit then
        let ex : Int := (signOf r3).1 * (natOfDigits (signOf r3).2 : Int) - (fl : Int)
        if 0 ≤ ex then some ((mant * 10 ^ ex.toNat : Int) : Rat)
        else some (mkRat mant (10 ^ (-ex).toNat))
      else none
    else none

/-- Python `float(s)` on an already-stripped string, for the decimal /
scientific literals that can reach `float` in this parser: optional sign,
digits with at most one dot (at least one digit), optional exponent.
The value is the exact decimal rational; `none` models the ValueError.
(`inf`/`nan` spellings never match the regexes that guard `float` calls.) -/
def pyFloat (cs : List Char) : Option Rat :=
  let r0 := (signOf cs).2
  let ip := r0.takeWhile Char.isDigit
  let r1 := r0.dropWhile Char.isDigit
  if ip = [] ∧ (¬ hasDotOf r1 ∨ fracOf r1 = []) then none
  else
    pyFloatExp ((signOf cs).1 * (natOfDigits (ip ++ fracOf r1) : Int))
      (fracOf r1).length (restOf r1)

/-- The sign-free part of `ptrn_float`: `\d+\.\d+`. -/
def digitsDotDigits (r0 : List Char) : Bool :=
  let (d1, r1) := r0.span Char.isDigit
  match d1, r1 with
  | _ :: _, '.' :: r2 => !r2.isEmpty && r2.all Char.isDigit
  | _, _ => false

/-- Matcher for `ptrn_float = r'^-?\d+\.\d+$'`. -/
def matchFloat (cs : List Char) : Bool :=
  digitsDotDigits (dropLead '-' cs)

/-- Digit-or-dot character class `[0-9.]`. -/
def digitDot (c : Char) : Bool :=
  c.isDigit || c = '.'

/-- The sign-free part of `ptrn_engnotation`: `[0-9.]+e-?[0-9.]+`. -/
def engCore (r0 : List Char) : Bool :=
  let (m, r1) := r0.span digitDot
  match m, r1 with
  | _ :: _, 'e' :: r2 =>
    let r3 := dropLead '-' r2
    !r3.isEmpty && r3.all digitDot
  | _, _ => false

/-- Matcher for `ptrn_engnotation = r'^-?[0-9.]+e-?[0-9.]+$'`
(lower-case `e` only; dots may repeat). -/
def matchEng (cs : List Char) : Bool :=
  engCore (dropLead '-' cs)

/-- Matcher for `ptrn_integer = r'^[-]*\d+$'` (any number of leading
minus signs). -/
def matchInt (cs : List Char) : Bool :=
  let (_, r) := cs.span (fun c => c = '-')
  !r.isEmpty && r.all Char.isDigit

/-- Matcher for `ptrn_string = r'^\<(?P<string>[^>]*)\>$'`: the whole
string is one angle-bracket pair whose interior contains no `>`. -/
def matchAngle (cs : List Char) : Bool :=
  match cs with
  | '<' :: t =>
    match t.getLast? with
    | some '>' => !t.dropLast.contains '>'
    | _ => false
  | _ => false

/-- The capture group of `ptrn_string` (interior of the angle pair);
meaningful when `matchAngle` holds. -/
def stripAngle (cs : List Char) : List Char :=
  match cs with
  | '<' :: t => t.dropLast
  | t => t

/-- The first two classifier steps: strip surrounding whitespace, then
unwrap one fully enclosing angle-bracket pair. -/
def classifierCore (cs : List Char) : List Char :=
  let s0 := pyStrip cs
  if matchAngle s0 then stripAngle s0 else s0

/-- `Parser.convert_string_to`: strip, unwrap a full angle-bracket pair,
then classify as None / float / int / string in the source's order.
The `float()` / `int()` conversions can raise (ValueError) because
`ptrn_engnotation` admits repeated dots and `ptrn_integer` admits
repeated minus signs. -/
def convert_string_to (cs : List Char) : Except PyErr PyVal :=
  let s := classifierCore cs
  if s.isEmpty then .ok .pnull
  else if matchFloat s || matchEng s then
    match pyFloat s with
    | some q => .ok (.pfloat q)
    | none => .error .valueError
  else if matchInt s then
    match pyInt s with
    | some n => .ok (.pint n)
    | none => .error .valueError
  else .ok (.pstr s)

/-- Flush a pending innermost-group candidate back into the output
(`none`: no candidate; `some inner`: an unmatched `(` followed by the
reversed paren-free characters read so far). -/
def flushCand : Option (List Char) → List Char
  | none => []
  | some inner => '(' :: inner.reverse

/-- Left-to-right scan of the regex `\((?P<c>[^()]*)\)` (this is both
`ptrn_array` and `ptrn_braces`): returns, in one pass,
(1) the list of captured groups in match order (`re.findall`),
(2) the string with every match deleted (`re.sub(ptrn, '')`), and
(3) the string with every match replaced by its group
(`re.sub(ptrn, '\g<c>')`).
A candidate starts at each `(`; a following `(` abandons it (flushing its
text), a following `)` completes the innermost match. -/
def braceScan : Option (List Char) → List Char →
    List (List Char) × List Char × List Char
  | b, [] => ([], flushCand b, flushCand b)
  | b, '(' :: r =>
    let (ms, rem, sub) := braceScan (some []) r
    (ms, flushCand b ++ rem, flushCand b ++ sub)
  | b, ')' :: r =>
    match b with
    | none =>
      let (ms, rem, sub) := braceScan none r
      (ms, ')' :: rem, ')' :: sub)
    | some inner =>
      let (ms, rem, sub) := braceScan none r
      (inner.reverse :: ms, rem, inner.reverse ++ sub)
  | b, c :: r =>
    match b with
    | none =>
      let (ms, rem, sub) := braceScan none r
      (ms, c :: rem, c :: sub)
    | some inner => braceScan (some (c :: inner)) r

/-- `re.findall(ptrn_array, cs)` / the groups of `re.finditer(ptrn_braces, cs)`. -/
def arrFindall (cs : List Char) : List (List Char) := (braceScan none cs).1

/-- `re.sub(ptrn_braces, '', cs)`. -/
def arrRemove (cs : List Char) : List Char := (braceScan none cs).2.1

/-- `re.sub(ptrn_array, r'\g<array>', cs)`. -/
def arrSub (cs : List Char) : List Char := (braceScan none cs).2.2

/-- Matcher for `re.match(ptrn_complex_array, cs)` with
`ptrn_complex_array = r"\((?P<comparray>\(.*)\)$"`: the string starts
with `((` and ends with `)`. -/
def matchComplex : List Char → Bool
  | '(' :: '(' :: rest => rest.getLast? = some ')'
  | _ => false

/-- `re.findall(ptrn_bisstring, cs)` with
`ptrn_bisstring = r'\<(?P<string>\$Bis[^>]*)\#\>'`: every non-overlapping
`<$Bis...#>` occurrence, captured without the trailing `#`. The fuel
(one unit per consumed character, initialised to the string length by
`bisFindall`) makes the skip past each match structural; it can never
run out because every step consumes at least one character. -/
def bisF : Nat → List Char → List (List Char)
  | 0, _ => []
  | fuel + 1, cs =>
    match cs with
    | '<' :: r =>
      match r with
      | '$' :: 'B' :: 'i' :: 's' :: r2 =>
        let (t, rest) := r2.span (fun c => c ≠ '>')
        match rest with
        | '>' :: r3 =>
          match t.getLast? with
          | some '#' => ('$' :: 'B' :: 'i' :: 's' :: t.dropLast) :: bisF fuel r3
          | _ => bisF fuel r
        | _ => bisF fuel r
      | _ => bisF fuel r
    | _ :: r => bisF fuel r
    | [] => []

def bisFindall (cs : List Char) : List (List Char) := bisF cs.length cs

/-- The number character classes of `ptrn_at_array`'s group
`([-]?\d*[.]?\d*[eE]?[-]?\d*?)`, checked left to right (the classes are
disjoint, so greedy sequential consumption is equivalent to the
backtracking regex). -/
def matchAtNum (t : List Char) : Bool :=
  let r0 := dropLead '-' t
  let r1 := r0.dropWhile Char.isDigit
  let r2 := dropLead '.' r1
  let r3 := r2.dropWhile Char.isDigit
  let r4 := match r3 with | 'e' :: x => x | 'E' :: x => x | x => x
  let r5 := dropLead '-' r4
  (r5.dropWhile Char.isDigit).isEmpty

/-- `re.findall(ptrn_at_array, cs)` with
`ptrn_at_array = r'@(\d*)\*\(([-]?\d*[.]?\d*[eE]?[-]?\d*?)\)'`:
pairs (count digits, number text). The closing `)` of a match is
necessarily the first `)` after its `(` since no number character can
match `)`. Fuel as in `bisF`. -/
def atF : Nat → List Char → List (List Char × List Char)
  | 0, _ => []
  | fuel + 1, cs =>
    match cs with
    | '@' :: r =>
      let (ds, r1) := r.span Char.isDigit
      match r1 with
      | '*' :: '(' :: r2 =>
        let (t, rest) := r2.span (fun c => c ≠ ')')
        match rest with
        | ')' :: r3 =>
          if matchAtNum t then (ds, t) :: atF fuel r3 else atF fuel r
        | _ => atF fuel r
      | _ => atF fuel r
    | _ :: r => atF fuel r
    | [] => []

def atFindall (cs : List Char) : List (List Char × List Char) := atF cs.length cs

/-- Python `str.replace(pat, rep)` (all non-overlapping occurrences, left
to right); `pat` is nonempty at every call site. Fuel as in `bisF`. -/
def replaceF (pat rep : List Char) : Nat → List Char → List Char
  | 0, s => s
  | fuel + 1, s =>
    match s with
    | [] => []
    | c :: r =>
      if pat.isPrefixOf (c :: r) then rep ++ replaceF pat rep fuel ((c :: r).drop pat.length)
      else c :: replaceF pat rep fuel r

def listReplace (s pat rep : List Char) : List Char :=
  if pat.isEmpty then s else replaceF pat rep s.length s

/-- `list(set(l))` of the found patterns. Python's set iteration order is
hash-dependent (and string hashing is randomised); it is modelled here as
first-occurrence order. The theorems below only rely on inputs where the
order cannot matter. -/
def dedupAux {α : Type} [DecidableEq α] : List α → List α → List α
  | _, [] => []
  | seen, x :: r => if x ∈ seen then dedupAux seen r else x :: dedupAux (x :: seen) r

def dedupFirst {α : Type} [DecidableEq α] (l : List α) : List α := dedupAux [] l

/-- Decimal digit character. -/
def digitChar10 : Nat → Char
  | 0 => '0'
  | 1 => '1'
  | 2 => '2'
  | 3 => '3'
  | 4 => '4'
  | 5 => '5'
  | 6 => '6'
  | 7 => '7'
  | 8 => '8'
  | 9 => '9'
  | _ => '0'

/-- Decimal rendering of a natural number (fuel exceeds the digit count). -/
def natDigitsAux : Nat → Nat → List Char → List Char
  | 0, _, acc => acc
  | fuel + 1, n, acc =>
    if n < 10 then digitChar10 n :: acc
    else natDigitsAux fuel (n / 10) (digitChar10 (n % 10) :: acc)

def natRepr (n : Nat) : List Char := natDigitsAux (n + 1) n []

/-- Smallest `k ≤ fuel` with `den ∣ 10 ^ k`. -/
def findTenPow (den : Nat) : Nat → Nat → Option Nat
  | _, 0 => none
  | k, fuel + 1 => if 10 ^ k % den = 0 then some k else findTenPow den (k + 1) fuel

/-- Python `str(float)` for the exact-decimal floats produced by
`pyFloat` (denominator a divisor of a power of ten).  Writing the value
as `scaled / 10 ^ k` with `scaled` a natural of `D` digits, the decimal
exponent is `E = D - 1 - k`; Python renders positionally (with at least
one fractional digit, e.g. `0.0`, `5.0`, `0.25`) for `-4 ≤ E < 16` and
switches to scientific notation otherwise: significant digits with the
dot after the first (no trailing `.0`), then `e`, an explicit `+`/`-`
sign, and the exponent zero-padded to two digits (`1e-05`, `1e+16`,
`2.5e+16`).  The float64 rounding of `str(float(x))` on literals with
more significant digits than a double holds is not modelled (values stay
exact rationals, per the conventions above); signed zero does not arise. -/
def floatRepr (q : Rat) : List Char :=
  match findTenPow q.den 0 4096 with
  | none => ['?']
  | some k =>
    let scaled := q.num.natAbs * (10 ^ k / q.den)
    let ds := natRepr scaled
    let sign : List Char := if q.num < 0 then ['-'] else []
    if k + 17 ≤ ds.length ∨ ds.length + 4 ≤ k then
      let sig := (ds.reverse.dropWhile (fun c => c = '0')).reverse
      let mant : List Char :=
        match sig with
        | [] => ['0']
        | [d] => [d]
        | d :: rest => d :: '.' :: rest
      let eAbs := if k + 17 ≤ ds.length then ds.length - 1 - k else k + 1 - ds.length
      let esign : Char := if k + 17 ≤ ds.length then '+' else '-'
      let edigits := natRepr eAbs
      let epad := if edigits.length < 2 then '0' :: edigits else edigits
      sign ++ mant ++ 'e' :: esign :: epad
    else
      let ip := scaled / 10 ^ k
      let fr := scaled % 10 ^ k
      let fds := natRepr fr
      let padded := List.replicate (k - fds.length) '0' ++ fds
      let stripped := (padded.reverse.dropWhile (fun c => c = '0')).reverse
      let frac := if stripped.isEmpty then ['0'] else stripped
      sign ++ natRepr ip ++ '.' :: frac

/-- `Parser.clean_up_elements_in_array`: find all `@<count>*(<number>)`
patterns, deduplicate, and replace every occurrence of each by `count`
space-separated copies of `str(float(number))` (the source builds
`str([float(number)] * count)` and strips `[`, `]`, `,`).
`int('')` / `float('.')`-style failures are ValueErrors. -/
def clean_up_elements_in_array (data : List Char) : Except PyErr (List Char) :=
  (dedupFirst (atFindall data)).foldlM
    (fun d (p : List Char × List Char) =>
      match pyInt p.1 with
      | none => .error .valueError
      | some cnt =>
        match pyFloat p.2 with
        | none => .error .valueError
        | some rep =>
          let patText := '@' :: p.1 ++ '*' :: '(' :: p.2 ++ [')']
          let replText := List.intercalate [' '] (List.replicate cnt.toNat (floatRepr rep))
          .ok (listReplace d patText replText))
    data

/-- `Parser.parse_shape`: the sentinel passes through; otherwise one
`re.sub(ptrn_array, ...)` pass strips innermost parentheses, and if a
comma remains the pieces are classified into a dimension list; a
non-string, non-sentinel shape would hit `re.sub` with a TypeError. -/
def parse_shape (shape : PyVal) : Except PyErr PyVal :=
  if shape = sentinel then .ok sentinel
  else
    match shape with
    | .pstr s =>
      let s' := arrSub s
      if s'.contains ',' then
        match (splitOnChar ',' s').mapM convert_string_to with
        | .error e => .error e
        | .ok vs => .ok (.plist vs)
      else .ok (.pstr s')
    | _ => .error .typeError

/-- Python `len` on the values that can reach it here. -/
def pyLen : PyVal → Except PyErr Nat
  | .pstr s => .ok s.length
  | .plist xs => .ok xs.length
  | .pcplx ls => .ok ls.length
  | _ => .error .typeError

/-- Python `==` between a value and an int (`shape[0] == len(elements)`):
ints and floats compare numerically, everything else is unequal. -/
def pyEqInt (v : PyVal) (n : Int) : Bool :=
  match v with
  | .pint m => m = n
  | .pfloat q => q = (n : Rat)
  | _ => false

/-- Python `e.split(',')` for the elements iterated in
`process_bisarray`: a string splits, anything else has no `.split`
(AttributeError). -/
def pySplitComma : PyVal → Except PyErr PyVal
  | .pstr t => .ok (.plist ((splitOnChar ',' t).map PyVal.pstr))
  | _ => .error .attributeError

/-- `elements.pop() if len(elements) == 1 else elements` after
classification. -/
def bisCollapse (es : List PyVal) : PyVal :=
  match es with
  | [x] => x
  | l => .plist l

/-- The shape-dependent tail of `process_bisarray`: when the declared
shape is a list whose first entry equals `len(elements)`, split each
element on commas (a string element iterates its characters; `.split`
on a non-string raises AttributeError, `len` of a number TypeError). -/
def bisShape (cur shape : PyVal) : Except PyErr PyVal :=
  match shape with
  | .plist [] => .error .keyError
  | .plist (s0 :: _) =>
    match pyLen cur with
    | .error e => .error e
    | .ok n =>
      if pyEqInt s0 (n : Int) then
        match cur with
        | .plist xs =>
          match xs.mapM pySplitComma with
          | .error e => .error e
          | .ok ys => .ok (.plist ys)
        | .pstr t =>
          .ok (.plist (t.map (fun c => PyVal.plist ((splitOnChar ',' [c]).map PyVal.pstr))))
        | .pcplx _ => .error .typeError
        | _ => .error .typeError
      else .ok cur
  | _ => .ok cur

/-- `Parser.process_bisarray`: classify each captured BIS string, collapse
a single element via `pop()`, and apply the shape-dependent comma split. -/
def process_bisarray (elements : List (List Char)) (shape : PyVal) :
    Except PyErr PyVal :=
  match elements.mapM convert_string_to with
  | .error e => .error e
  | .ok es => bisShape (bisCollapse es) shape

/-- `Parser.parse_array_data`: if any bracket group contains a comma,
every group is split on commas into a row; otherwise each group is
classified as one scalar. -/
def parse_array_data (ms : List (List Char)) : Except PyErr PyVal :=
  if ms.any (fun cell => cell.contains ',') then
    match ms.mapM (fun cell => ((splitOnChar ',' cell).mapM convert_string_to).map PyVal.plist) with
    | .error e => .error e
    | .ok rows => .ok (.plist rows)
  else
    match ms.mapM convert_string_to with
    | .error e => .error e
    | .ok vs => .ok (.plist vs)

/-- `Parser.parse_data`: bracket groups if present, else split on commas,
else split on spaces (keeping empty pieces), else the text itself. -/
def parse_data (data : List Char) : Except PyErr PyVal :=
  match arrFindall data with
  | m :: ms => parse_array_data (m :: ms)
  | [] =>
    if data.contains ',' then
      match (splitOnChar ',' data).mapM convert_string_to with
      | .error e => .error e
      | .ok vs => .ok (.plist vs)
    else if data.contains ' ' then
      match (splitOnChar ' ' data).mapM convert_string_to with
      | .error e => .error e
      | .ok vs => .ok (.plist vs)
    else .ok (.pstr data)

mutual

/-- Shape inference of `np.asarray` on nested lists: scalars (including
strings, `None` and dicts, which numpy wraps as 0-d values) have shape
`[]`; a list needs all members of equal shape, otherwise the array is
ragged (ValueError). -/
def npShapeOf : PyVal → Except PyErr (List Nat)
  | .plist xs =>
    match npShapeOfList xs with
    | .error e => .error e
    | .ok ss =>
      match ss with
      | [] => .ok [0]
      | s0 :: rest =>
        if rest.all (fun s => s = s0) then .ok (xs.length :: s0)
        else .error .valueError
  | _ => .ok []

def npShapeOfList : List PyVal → Except PyErr (List (List Nat))
  | [] => .ok []
  | x :: r =>
    match npShapeOf x, npShapeOfList r with
    | .ok s, .ok ss => .ok (s :: ss)
    | .error e, _ => .error e
    | _, .error e => .error e

end

mutual

/-- Row-major leaf sequence of a nested-list value. -/
def npFlatten : PyVal → List PyVal
  | .plist xs => npFlattenList xs
  | v => [v]

def npFlattenList : List PyVal → List PyVal
  | [] => []
  | x :: r => npFlatten x ++ npFlattenList r

end

def listProd (l : List Nat) : Nat := l.foldl (fun a n => a * n) 1

/-- Split into `d` consecutive chunks of `size` elements. -/
def splitChunks (size : Nat) : Nat → List PyVal → List (List PyVal)
  | 0, _ => []
  | d + 1, xs => xs.take size :: splitChunks size d (xs.drop size)

/-- Row-major nesting of a flat leaf list to the given dimensions
(callers establish `listProd dims = xs.length`). -/
def npBuild : List Nat → List PyVal → PyVal
  | [], xs =>
    match xs with
    | [x] => x
    | l => .plist l
  | d :: rest, xs => .plist ((splitChunks (listProd rest) d xs).map (fun cx => npBuild rest cx))

/-- A reshape dimension must be a Python int (else TypeError from
`np.reshape`). -/
def dimInt : PyVal → Except PyErr Int
  | PyVal.pint n => .ok n
  | _ => .error .typeError

/-- Dimension validation of `np.reshape`: no dimension below `-1`, at
most one `-1` (inferred from the leaf count), and the product must equal
the leaf count. Returns the resolved dimension list. -/
def npCheckDims (flatLen : Nat) (ds : List Int) : Except PyErr (List Nat) :=
  if ds.any (fun n => n < -1) then .error .valueError
  else if 2 ≤ (ds.filter (fun n => n = -1)).length then .error .valueError
  else if (ds.filter (fun n => n = -1)).length = 1 then
    let p := (ds.filter (fun n => n ≠ -1)).foldl (fun a n => a * n.toNat) 1
    if 0 < p ∧ flatLen % p = 0 then
      .ok (ds.map (fun n => if n = -1 then flatLen / p else n.toNat))
    else .error .valueError
  else if ds.foldl (fun a n => a * n.toNat) 1 = flatLen then .ok (ds.map Int.toNat)
  else .error .valueError

def npStage2 (flat : List PyVal) (ds : List Int) : Except PyErr PyVal :=
  match npCheckDims flat.length ds with
  | .error e => .error e
  | .ok dims => .ok (npBuild dims flat)

/-- Model of `np.asarray(data).reshape(shape)` on the domain exercised by
this parser: the nested list must be rectangular (else ValueError), the
dimensions must be Python ints (else TypeError) with at most one `-1`
(inferred), and the product must equal the leaf count (else ValueError).
Leaf dtype promotion (numpy stringifies every leaf when a string leaf is
present) is not modelled; no theorem below evaluates a reshape whose
guard admits string or null leaves. -/
def npReshape (v : PyVal) (dims : List PyVal) : Except PyErr PyVal :=
  match npShapeOf v with
  | .error e => .error e
  | .ok _ =>
    match dims.mapM dimInt with
    | .error e => .error e
    | .ok ds => npStage2 (npFlatten v) ds

def isParen (c : Char) : Bool := c = '(' || c = ')'

def parenCount (cs : List Char) : Nat := (cs.filter isParen).length

/-- `Parser.process_string` parameterised by the handler for the
complex-array branch. The recursion
`convert_data_to → process_string → process_complexarray →
convert_data_to` is stratified: the innermost-group contents fed back to
`convert_data_to` by `process_complexarray` are parenthesis-free, so
they can never re-enter the complex-array branch. -/
def process_string_core (cplx : List Char → Except PyErr PyVal)
    (data : List Char) (shape : PyVal) : Except PyErr (PyVal × PyVal) :=
  match parse_shape shape with
  | .error e => .error e
  | .ok sh =>
    match bisFindall data with
    | e1 :: rest =>
      match process_bisarray (e1 :: rest) sh with
      | .error e => .error e
      | .ok v => .ok (v, sentinel)
    | [] =>
      match clean_up_elements_in_array data with
      | .error e => .error e
      | .ok d =>
        if matchComplex d then
          match cplx d with
          | .error e => .error e
          | .ok v => .ok (v, sh)
        else if matchAngle d then .ok (.pstr (stripAngle d), sh)
        else
          match parse_data d with
          | .error e => .error e
          | .ok v => .ok (v, sh)

/-- The tail of `convert_data_to` after any string data has gone through
`process_string`: reshape an eligible list (shape is a list, no top-level
string or `None` element), classify a still-string value, return
everything else unchanged. -/
def reshapeStep (d sh : PyVal) : Except PyErr PyVal :=
  match d with
  | .plist xs =>
    match sh with
    | .plist dims =>
      if xs.all (fun c => c.isStr = false) ∧ xs.all (fun c => c ≠ .pnull) then
        npReshape (.plist xs) dims
      else .ok d
    | _ => .ok d
  | .pstr s => convert_string_to s
  | _ => .ok d

/-- `Parser.convert_data_to` parameterised like `process_string_core`. -/
def convert_data_core (cplx : List Char → Except PyErr PyVal)
    (data shape : PyVal) : Except PyErr PyVal :=
  match data with
  | .pstr s =>
    match process_string_core cplx s shape with
    | .error e => .error e
    | .ok (d, sh) => reshapeStep d sh
  | _ => reshapeStep data shape

/-- Dead handler for the stratified inner calls: the complex-array branch
is unreachable there because those inputs are parenthesis-free. -/
def deadCplx : List Char → Except PyErr PyVal := fun _ => .error .typeError

/-- The `while re.search(ptrn_braces, ...)` loop of
`Parser.process_complexarray`: per pass, one row per innermost group
(its comma-split pieces fed through `convert_data_to` with the sentinel
shape, `None` results dropped), then all matches are deleted and the
next level starts. One fuel unit per pass; each pass removes at least
one `(`, so the `parenCount` based fuel of `process_complexarray` never
runs out. -/
def pcxRun : Nat → List Char → Except PyErr (List PyVal)
  | 0, _ => .ok []
  | fuel + 1, d =>
    match arrFindall d with
    | [] => .ok []
    | m :: ms =>
      match (m :: ms).mapM (fun mm =>
        ((splitOnChar ',' mm).mapM
          (fun cont => convert_data_core deadCplx (.pstr (pyStrip cont)) sentinel)).map
          (fun vals => PyVal.plist (vals.filter (fun v => v ≠ PyVal.pnull)))) with
      | .error e => .error e
      | .ok rows =>
        match pcxRun fuel (arrRemove d) with
        | .error e => .error e
        | .ok rest => .ok (PyVal.plist rows :: rest)

/-- `Parser.process_complexarray` (the resulting `level_N` dict as
`pcplx`). -/
def process_complexarray (data : List Char) : Except PyErr PyVal :=
  (pcxRun (parenCount data + 1) data).map PyVal.pcplx

/-- `Parser.process_string`. -/
def process_string (data : List Char) (shape : PyVal) : Except PyErr (PyVal × PyVal) :=
  process_string_core process_complexarray data shape

/-- `Parser.convert_data_to`. -/
def convert_data_to (data shape : PyVal) : Except PyErr PyVal :=
  convert_data_core process_complexarray data shape

/-- Pass counter of the `process_complexarray` loop (same skeleton as
`pcxRun`). -/
def passesF : Nat → List Char → Nat
  | 0, _ => 0
  | fuel + 1, d =>
    match arrFindall d with
    | [] => 0
    | _ :: _ => 1 + passesF fuel (arrRemove d)

def pcxPasses (d : List Char) : Nat := passesF (parenCount d + 1) d

/-- Numeric scalar (int or float): the leaves the reshape claim is
about. -/
def isNumScalar : PyVal → Bool
  | .pint _ => true
  | .pfloat _ => true
  | _ => false

/-- The spec's decimal-float shape (optional sign, digits, `.`, digits),
written as an explicit decomposition so that `matchFloat` can be checked
against it. -/
def specFloat (t : List Char) : Prop :=
  ∃ sgn d1 d2 : List Char,
    (sgn = [] ∨ sgn = ['-']) ∧ d1 ≠ [] ∧ d2 ≠ [] ∧
    (∀ c ∈ d1, c.isDigit) ∧ (∀ c ∈ d2, c.isDigit) ∧
    t = sgn ++ d1 ++ '.' :: d2

/-- The shape of `ptrn_engnotation` as an explicit decomposition:
optional sign, digit-or-dot run, lower-case `e`, optional sign,
digit-or-dot run. -/
def specEng (t : List Char) : Prop :=
  ∃ sgn m sgn2 x : List Char,
    (sgn = [] ∨ sgn = ['-']) ∧ m ≠ [] ∧ (∀ c ∈ m, digitDot c) ∧
    (sgn2 = [] ∨ sgn2 = ['-']) ∧ x ≠ [] ∧ (∀ c ∈ x, digitDot c) ∧
    t = sgn ++ m ++ 'e' :: (sgn2 ++ x)

/-- The shape of `ptrn_integer` as an explicit decomposition: any number
of leading minus signs, then digits. -/
def specInt (t : List Char) : Prop :=
  ∃ (k : Nat) (d : List Char),
    d ≠ [] ∧ (∀ c ∈ d, c.isDigit) ∧ t = List.replicate k '-' ++ d

/-- Height machine for the matched-bracket forest: the stack holds, per
open `(`, the maximal height of its completed children; closing a pair
of child-height `h` merges `h + 1` into the parent (or the top-level
accumulator). Unmatched brackets contribute no height. -/
def mhAux : List Char → List Nat → Nat → Nat
  | [], stack, acc => stack.foldl (fun a h => max a h) acc
  | '(' :: r, stack, acc => mhAux r (0 :: stack) acc
  | ')' :: r, stack, acc =>
    match stack with
    | [] => mhAux r [] acc
    | h :: rest =>
      match rest with
      | [] => mhAux r [] (max acc (h + 1))
      | p :: rs => mhAux r (max p (h + 1) :: rs) acc
  | _ :: r, stack, acc => mhAux r stack acc

/-- Nesting height of the matched-bracket forest of a string. -/
def mh (s : List Char) : Nat := mhAux s [] 0

/-- Running bracket counter, clamped at zero on unmatched `)`, together
with its maximum. -/
def depthAux : List Char → Nat → Nat → Nat
  | [], _, best => best
  | '(' :: r, c, best => depthAux r (c + 1) (max best (c + 1))
  | ')' :: r, c, best => depthAux r (c - 1) best
  | _ :: r, c, best => depthAux r c best

/-- The maximum literal bracket-nesting depth of a string (clamped
running counter). -/
def nestDepth (s : List Char) : Nat := depthAux s 0 0

/-- Bound invariant for the height-machine stack: the entry at depth `d`
(top has depth = stack length) plus its depth is at most `best`. -/
def stackBnd : List Nat → Nat → Nat → Prop
  | [], _, _ => True
  | h :: rest, d, best => h + d ≤ best ∧ stackBnd rest (d - 1) best

/-- Record kind (the `HEADER = 0` / `PARAMETER = 1` enum). -/
inductive PKind where
  | header
  | parameter
  deriving DecidableEq, Repr

/-- Matcher for `ptrn_param = r'^\#\#(?P<key>.*)\=(?P<value>.*)$'` under
`re.match`: the line starts with `##` and contains `=`; the greedy key
group extends to the last `=` of the line (`.` cannot cross a newline,
but the caller-supplied lines are newline-free). -/
def matchParam (line : List Char) : Option (List Char × List Char) :=
  match line with
  | '#' :: '#' :: rest =>
    if '\n' ∈ rest then none
    else
      let (vRev, r2) := rest.reverse.span (fun c => c ≠ '=')
      match r2 with
      | '=' :: kRev => some (kRev.reverse, vRev.reverse)
      | _ => none
  | _ => none

/-- Matcher for `re.match(ptrn_comment, line)` with
`ptrn_comment = r'\$\$.*'`. -/
def matchComment : List Char → Bool
  | '$' :: '$' :: _ => true
  | _ => false

/-- One tokenized record: `(line number, kind, key, inline value)`. -/
abbrev Record := Nat × PKind × List Char × List Char

/-- The loop body of `Parser.load_param`, carrying the next line number:
returns the ordered record map and the address list. A key beginning
with `$` makes a Parameter record with the `$` stripped
(`re.sub(ptrn_key, ...)`), otherwise a Header record. -/
def loadAux : Nat → List (List Char) → List Record × List Nat
  | _, [] => ([], [])
  | i, line :: rest =>
    let (ps, adr) := loadAux (i + 1) rest
    match matchParam line with
    | some (k, v) =>
      match k with
      | '$' :: kt => ((i, .parameter, kt, v) :: ps, i :: adr)
      | _ => ((i, .header, k, v) :: ps, i :: adr)
    | none => (ps, adr)

/-- `Parser.load_param` (the unchanged `stringlist` component of the
triple is kept by the caller). -/
def load_param (stringlist : List (List Char)) : List Record × List Nat :=
  loadAux 0 stringlist

/-- `params[addr]` on the ordered record map. -/
def lookupAddr (ps : List Record) (a : Nat) : Option (PKind × List Char × List Char) :=
  match ps with
  | [] => none
  | (i, r) :: rest => if i = a then some r else lookupAddr rest a

/-- The payload join of `_process_contents`: the lines strictly between
the two record addresses, comment lines dropped, each stripped, joined
with single spaces. -/
def joinedPayload (contents : List (List Char)) (addr gap : Nat) : List Char :=
  List.intercalate [' ']
    ((((contents.drop (addr + 1)).take (gap - 1)).filter
        (fun l => matchComment l = false)).map pyStrip)

/-- `Parameter._process_contents`: for a gap larger than one, join the
stripped in-between lines (dropping `$$` comment lines) with spaces; a
non-empty join is returned raw together with the inline value as shape
token, otherwise (and for gap one) the inline value is classified with
the sentinel shape. -/
def process_contents (contents : List (List Char)) (addr : Nat) (gap : Nat)
    (value : List Char) : Except PyErr (PyVal × PyVal) :=
  if 1 < gap then
    let data := joinedPayload contents addr gap
    if data ≠ [] then .ok (.pstr data, .pstr value)
    else (convert_string_to value).map (fun v => (v, sentinel))
  else (convert_string_to value).map (fun v => (v, sentinel))

/-- OrderedDict assignment: overwrite in place, else append. -/
def upsert (m : List (List Char × PyVal)) (k : List Char) (v : PyVal) :
    List (List Char × PyVal) :=
  match m with
  | [] => [(k, v)]
  | (k0, v0) :: r => if k0 = k then (k, v) :: r else (k0, v0) :: upsert r k v

def lookupKey (m : List (List Char × PyVal)) (k : List Char) : Option PyVal :=
  match m with
  | [] => none
  | (k0, v0) :: r => if k0 = k then some v0 else lookupKey r k

/-- One iteration of the `_set_param` loop: look the record up, slice
and process its payload, and (for a Parameter record) reconstruct the
value; returns the kind, key, and value to be stored. -/
def setStep (params : List Record) (contents : List (List Char)) (a b : Nat) :
    Except PyErr (PKind × List Char × PyVal) :=
  match lookupAddr params a with
  | none => .error .keyError
  | some (dtype, key, value) =>
    match process_contents contents a (b - a) value with
    | .error e => .error e
    | .ok (data, shape) =>
      match dtype with
      | .parameter =>
        match convert_data_to data shape with
        | .error e => .error e
        | .ok v => .ok (.parameter, key, v)
      | .header => .ok (.header, key, data)

/-- The loop of `Parameter._set_param` over consecutive address pairs
(`enumerate(param_addr[:-1])` with `addr_diff = np.diff(param_addr)`),
accumulating the header and parameter maps. -/
def setParamAux (params : List Record) (contents : List (List Char)) :
    List (Nat × Nat) → List (List Char × PyVal) → List (List Char × PyVal) →
    Except PyErr (List (List Char × PyVal) × List (List Char × PyVal))
  | [], hdr, prm => .ok (hdr, prm)
  | (a, b) :: rest, hdr, prm =>
    match setStep params contents a b with
    | .error e => .error e
    | .ok (.parameter, key, v) => setParamAux params contents rest hdr (upsert prm key v)
    | .ok (.header, key, v) => setParamAux params contents rest (upsert hdr key v) prm

/-- `Parameter._set_param`: the result is `(header, parameters)`. -/
def set_param (params : List Record) (param_addr : List Nat)
    (contents : List (List Char)) :
    Except PyErr (List (List Char × PyVal) × List (List Char × PyVal)) :=
  setParamAux params contents (param_addr.zip param_addr.tail) [] []

/-- `Parameter.__init__`: tokenize then build the two maps. -/
def paramBuild (stringlist : List (List Char)) :
    Except PyErr (List (List Char × PyVal) × List (List Char × PyVal)) :=
  let (ps, adr) := load_param stringlist
  set_param ps adr stringlist

example : matchParam "##a=b=c".toList = some ("a=b".toList, "c".toList) := by decide
example : load_param ["##$EchoTime=10.5".toList, "junk".toList, "##END=".toList]
  = ([(0, .parameter, "EchoTime".toList, "10.5".toList), (2, .header, "END".toList, [])],
     [0, 2]) := by decide
example : paramBuild ["##$EchoTime=10.5".toList, "##END=".toList]
  = .ok ([], [("EchoTime".toList, .pfloat (mkRat 21 2))]) := by decide
example : paramBuild ["##TITLE=5".toList, "##END=x".toList]
  = .ok ([("TITLE".toList, .pint 5)], []) := by decide
example : paramBuild ["##TITLE=5".toList] = .ok ([], []) := by decide
example : paramBuild [] = .ok ([], []) := by decide
example : paramBuild ["##$A=( 2, 2 )".toList, "1 2 3 4".toList, "##END=".toList]
  = .ok ([], [("A".toList,
      .plist [.plist [.pint 1, .pint 2], .plist [.pint 3, .pint 4]])]) := by decide
example : paramBuild ["##HDR=( 2, 2 )".toList, "1 2 3 4".toList, "##END=".toList]
  = .ok ([("HDR".toList, .pstr "1 2 3 4".toList)], []) := by decide

example : convert_data_to (.pstr "1 2 3 4".toList) (.pstr "(2, 2)".toList)
  = .ok (.plist [.plist [.pint 1, .pint 2], .plist [.pint 3, .pint 4]]) := by decide
example : convert_data_to (.pstr "@3*(0)".toList) sentinel
  = .ok (.plist [.pfloat (mkRat 0 1), .pfloat (mkRat 0 1), .pfloat (mkRat 0 1)]) := by decide
example : convert_data_to (.pstr "1 2 3 4".toList) (.pstr "(abc,2)".toList)
  = .error .typeError := by decide
example : convert_data_to (.pstr "1 2 3".toList) (.pstr "(2, 2)".toList)
  = .error .valueError := by decide
example : convert_data_to (.pstr "(1,2) (3)".toList) (.pstr "(3, 1)".toList)
  = .error .valueError := by decide
example : convert_data_to (.pstr "<$BisA#> <$BisB#>".toList) (.pstr "(9, 9)".toList)
  = .ok (.plist [.pstr "$BisA".toList, .pstr "$BisB".toList]) := by decide
example : convert_data_to (.pstr "((1,2),(3,4))".toList) sentinel
  = .ok (.pcplx [.plist [.plist [.pint 1, .pint 2], .plist [.pint 3, .pint 4]],
                 .plist [.plist []]]) := by decide
example : convert_data_to (.pstr "<Hello>".toList) sentinel
  = .ok (.pstr "Hello".toList) := by decide

example : arrFindall "(1,2) (3,4)".toList = ["1,2".toList, "3,4".toList] := by decide
example : arrSub "(2, 3)".toList = "2, 3".toList := by decide
example : arrRemove "((1,2),(3,4))".toList = "(,)".toList := by decide
example : matchComplex "((1,2),(3,4))".toList = true := by decide
example : bisFindall "<$BisA#> <$BisB#>".toList = ["$BisA".toList, "$BisB".toList] := by decide
example : atFindall "@3*(0)".toList = [("3".toList, "0".toList)] := by decide
example : clean_up_elements_in_array "@3*(0)".toList = .ok "0.0 0.0 0.0".toList := by decide
example : floatRepr (mkRat 1 4) = "0.25".toList := by decide
example : floatRepr (mkRat 1 100000) = "1e-05".toList := by decide
example : floatRepr (mkRat 1 10000) = "0.0001".toList := by decide
example : floatRepr (mkRat 15 1000000) = "1.5e-05".toList := by decide
example : floatRepr (mkRat 10000000000000000 1) = "1e+16".toList := by decide
example : floatRepr (mkRat 1000000000000000 1) = "1000000000000000.0".toList := by decide
example : floatRepr (mkRat (-1) 100000) = "-1e-05".toList := by decide
example : clean_up_elements_in_array "@2*(1e-5)".toList = .ok "1e-05 1e-05".toList := by
  decide
example : convert_data_to (.pstr "@2*(1e-5)".toList) sentinel =
    .ok (.plist [.pfloat (mkRat 1 100000), .pfloat (mkRat 1 100000)]) := by decide
example : convert_data_to (.pstr "@2*(1e16)".toList) sentinel =
    .ok (.plist [.pstr "1e+16".toList, .pstr "1e+16".toList]) := by decide

example : convert_string_to " 10.5 ".toList = .ok (.pfloat (mkRat 21 2)) := by decide
example : convert_string_to "<2dseq>".toList = .ok (.pstr "2dseq".toList) := by decide
example : convert_string_to "-3".toList = .ok (.pint (-3)) := by decide
example : convert_string_to "".toList = .ok .pnull := by decide
example : convert_string_to "--5".toList = .error .valueError := by decide
example : convert_string_to "1.2.3e4".toList = .error .valueError := by decide
example : convert_string_to "1E5".toList = .ok (.pstr "1E5".toList) := by decide
example : convert_string_to "1e2".toList = .ok (.pfloat (mkRat 100 1)) := by decide

lemma takeWhile_all_append {p : Char → Bool} {xs : List Char}
    (h : ∀ x ∈ xs, p x = true) (y : Char) (ys : List Char) (hy : p y = false) :
    (xs ++ y :: ys).takeWhile p = xs := by
  induction xs with
  | nil => simp [List.takeWhile, hy]
  | cons a t ih =>
    have ha : p a = true := h a (by simp)
    simp only [List.cons_append, List.takeWhile_cons, ha]
    simp [ih (fun x hx => h x (by simp [hx]))]

lemma dropWhile_all_append {p : Char → Bool} {xs : List Char}
    (h : ∀ x ∈ xs, p x = true) (y : Char) (ys : List Char) (hy : p y = false) :
    (xs ++ y :: ys).dropWhile p = y :: ys := by
  induction xs with
  | nil => simp [List.dropWhile, hy]
  | cons a t ih =>
    have ha : p a = true := h a (by simp)
    simp only [List.cons_append, List.dropWhile_cons, ha]
    simpa using ih (fun x hx => h x (by simp [hx]))

/-- C9: a `##<key>=<value>` line with more than one `=` is split at the
last `=`: for any key text `k` (which may itself contain `=`) and any
inline value `v` free of `=`, the tokenizer's record matcher returns
exactly `(k, v)` — the greedy key capture of `ptrn_param` extends to the
last `=` of the line. (Lines are newline-free by the input contract.) -/
theorem c9_last_equals_split (k v : List Char)
    (hv : '=' ∉ v) (hk : '\n' ∉ k) (hv2 : '\n' ∉ v) :
    matchParam ('#' :: '#' :: (k ++ '=' :: v)) = some (k, v) := by
  have hmem : ∀ x ∈ v.reverse, (fun c => !decide (c = '=')) x = true := by
    intro x hx
    have hxv : x ∈ v := List.mem_reverse.mp hx
    simp only [Bool.not_eq_true']
    exact decide_eq_false (fun hh => hv (hh ▸ hxv))
  have ht := takeWhile_all_append (p := fun c => !decide (c = '=')) hmem '=' k.reverse (by simp)
  have hd := dropWhile_all_append (p := fun c => !decide (c = '=')) hmem '=' k.reverse (by simp)
  have hrev : (k ++ '=' :: v).reverse = v.reverse ++ '=' :: k.reverse := by simp
  simp [matchParam, hrev, ht, hd, hk, hv2]

/-- Witness for C9 at a concrete double-`=` line. -/
theorem c9_witness :
    matchParam "##a=b=c".toList = some ("a=b".toList, "c".toList) :=
  c9_last_equals_split "a=b".toList "c".toList (by decide) (by decide) (by decide)

/-- C10: a record set with zero or one matching record line constructs
successfully and yields empty header and parameter maps (the pair loop
over `addresses[:-1]` is empty). -/
theorem c10_lone_record_empty (sl : List (List Char))
    (h : (load_param sl).2.length ≤ 1) :
    paramBuild sl = .ok ([], []) := by
  unfold paramBuild set_param
  rcases hlp : load_param sl with ⟨ps, adr⟩
  have h2 := congrArg Prod.snd hlp
  simp only at h2
  rw [h2] at h
  show setParamAux ps sl (adr.zip adr.tail) [] [] = Except.ok ([], [])
  match adr, h with
  | [], _ => rfl
  | [a], _ => rfl
  | a :: b :: r, hh => simp at hh

/-- Witness for C10: a single-record line sequence. -/
theorem c10_witness :
    (load_param ["##TITLE=5".toList]).2.length ≤ 1 ∧
    paramBuild ["##TITLE=5".toList] = .ok ([], []) :=
  ⟨by decide, c10_lone_record_empty ["##TITLE=5".toList] (by decide)⟩

/-- Counterexample to C1 as stated: with payload `"1 2 3 4"` and declared
shape `(abc,2)` (cited in the spec as a case where reshape is skipped),
strategies 1–5 do produce a flat list and a parsed dimension list, but
`convert_data_to` raises a TypeError from `np.reshape` on the string
dimension instead of returning the structure unchanged. -/
theorem c1_counterexample :
    process_string "1 2 3 4".toList (.pstr "(abc,2)".toList) =
      .ok (.plist [.pint 1, .pint 2, .pint 3, .pint 4],
           .plist [.pstr "abc".toList, .pint 2]) ∧
    convert_data_to (.pstr "1 2 3 4".toList) (.pstr "(abc,2)".toList) =
      .error .typeError :=
  ⟨by decide, by decide⟩

/-- Counterexample to C2 as stated: a Header record with a single-line
numeric inline value is stored as the classified int `5`, not as the raw
payload string `"5"`. -/
theorem c2_counterexample :
    paramBuild ["##TITLE=5".toList, "##END=x".toList] =
      .ok ([("TITLE".toList, .pint 5)], []) ∧
    PyVal.pint 5 ≠ .pstr "5".toList :=
  ⟨by decide, by decide⟩

/-- Counterexample to C3 as stated: the classifier is not total — `--5`
matches `ptrn_integer` (`[-]*\d+`) but `int('--5')` raises ValueError. -/
theorem c3_counterexample :
    convert_string_to "--5".toList = .error .valueError := by decide

/-- Counterexample to C6 as stated: with two BIS tokens but declared
shape `(--5,2)`, shape parsing (which precedes BIS extraction in
`process_string`) raises, so the BIS strategy does not take priority
"regardless of the declared shape". -/
theorem c6_counterexample :
    (bisFindall "<$BisA#> <$BisB#>".toList).length = 2 ∧
    convert_data_to (.pstr "<$BisA#> <$BisB#>".toList) (.pstr "(--5,2)".toList) =
      .error .valueError :=
  ⟨by decide, by decide⟩

/-- C1 (amended): the reshape step is skipped — the structure produced by
strategies 1–5 returned unchanged, no error — whenever the post-strategy
shape is not a dimension list, or some top-level element of the produced
list is a string or null. (Deeper string/null leaves do not block the
reshape, and when the guard passes, a dimension-product mismatch or
non-integer dimension raises from `np.reshape` instead of degrading.) -/
theorem c1_reshape_skipped (s : List Char) (shape d sh : PyVal) (xs : List PyVal)
    (h : process_string s shape = .ok (d, sh))
    (hd : d = .plist xs)
    (hskip : sh.isList = false ∨ ∃ c ∈ xs, c.isStr = true ∨ c = .pnull) :
    convert_data_to (.pstr s) shape = .ok d := by
  have hred : convert_data_to (.pstr s) shape =
      match process_string s shape with
      | .error e => .error e
      | .ok (d, sh) => reshapeStep d sh := rfl
  rw [hred, h]
  show reshapeStep d sh = Except.ok d
  subst hd
  cases sh with
  | plist dims =>
    rcases hskip with hnl | ⟨c, hc, hbad⟩
    · simp [PyVal.isList] at hnl
    · have hguard : ¬ ((xs.all fun c => decide (c.isStr = false)) = true ∧
          (xs.all fun c => decide (c ≠ PyVal.pnull)) = true) := by
        rintro ⟨h1, h2⟩
        rcases hbad with hstr | hnull
        · have := List.all_eq_true.mp h1 c hc
          simp [hstr] at this
        · have := List.all_eq_true.mp h2 c hc
          simp [hnull] at this
      show (if (xs.all fun c => decide (c.isStr = false)) = true ∧
          (xs.all fun c => decide (c ≠ PyVal.pnull)) = true then
            npReshape (PyVal.plist xs) dims
          else Except.ok (PyVal.plist xs)) = Except.ok (PyVal.plist xs)
      rw [if_neg hguard]
  | pnull => rfl
  | pint n => rfl
  | pfloat q => rfl
  | pstr t => rfl
  | pcplx l => rfl

/-- Witness for C1: string leaves make the reshape guard fail, so the
flat list from the generic strategy is returned unchanged. -/
theorem c1_witness :
    convert_data_to (.pstr "a, b".toList) (.pstr "(2, 2)".toList) =
      .ok (.plist [.pstr "a".toList, .pstr "b".toList]) :=
  c1_reshape_skipped "a, b".toList (.pstr "(2, 2)".toList)
    (.plist [.pstr "a".toList, .pstr "b".toList])
    (.plist [.pint 2, .pint 2])
    [.pstr "a".toList, .pstr "b".toList] (by decide) rfl
    (.inr ⟨.pstr "a".toList, by decide, .inl (by decide)⟩)

lemma convert_data_to_pstr (s : List Char) (shape : PyVal) :
    convert_data_to (.pstr s) shape =
      match process_string s shape with
      | .error e => .error e
      | .ok (d, sh) => reshapeStep d sh := rfl

@[simp] lemma exBind_ok {α β : Type} (x : α) (g : α → Except PyErr β) :
    (Except.ok x >>= g) = g x := rfl

@[simp] lemma exBind_err {α β : Type} (e : PyErr) (g : α → Except PyErr β) :
    ((Except.error e : Except PyErr α) >>= g) = .error e := rfl

@[simp] lemma exPure_eq_ok {α : Type} (x : α) :
    (pure x : Except PyErr α) = .ok x := rfl

lemma exceptMapM_ok_length {α β : Type} (f : α → Except PyErr β) :
    ∀ (l : List α) (r : List β), l.mapM f = .ok r → r.length = l.length := by
  intro l
  induction l with
  | nil =>
    intro r h
    rw [List.mapM_nil] at h
    cases h
    rfl
  | cons a t ih =>
    intro r h
    rw [List.mapM_cons] at h
    cases hfa : f a with
    | error e =>
      rw [hfa] at h
      simp only [exBind_err] at h
      cases h
    | ok x =>
      rw [hfa] at h
      simp only [exBind_ok] at h
      cases hft : t.mapM f with
      | error e =>
        rw [hft] at h
        simp only [exBind_err] at h
        cases h
      | ok xs =>
        rw [hft] at h
        simp only [exBind_ok, exPure_eq_ok] at h
        cases h
        simp [ih xs hft]

lemma bisCollapse_two (es : List PyVal) (hlen : 2 ≤ es.length) :
    bisCollapse es = .plist es := by
  match es, hlen with
  | x :: y :: r, _ => rfl

/-- With at least two extracted elements, a successful `process_bisarray`
always returns a Python list. -/
lemma process_bisarray_two_plist (es : List (List Char)) (sh v : PyVal)
    (hlen : 2 ≤ es.length) (h : process_bisarray es sh = .ok v) :
    ∃ ys, v = .plist ys := by
  unfold process_bisarray at h
  cases hmm : es.mapM convert_string_to with
  | error e => rw [hmm] at h; cases h
  | ok es' =>
    rw [hmm] at h
    replace h : bisShape (bisCollapse es') sh = .ok v := h
    have hlen' : es'.length = es.length := exceptMapM_ok_length _ es es' hmm
    rw [bisCollapse_two es' (by omega)] at h
    unfold bisShape at h
    cases sh with
    | plist dims =>
      cases dims with
      | nil => cases h
      | cons s0 ds =>
        replace h : (if pyEqInt s0 (es'.length : Int) = true then
            match es'.mapM pySplitComma with
            | Except.error e => Except.error e
            | Except.ok ys => Except.ok (PyVal.plist ys)
          else Except.ok (PyVal.plist es')) = Except.ok v := h
        by_cases hq : pyEqInt s0 (es'.length : Int) = true
        · rw [if_pos hq] at h
          cases hsp : es'.mapM pySplitComma with
          | error e => rw [hsp] at h; cases h
          | ok ys => rw [hsp] at h; cases h; exact ⟨ys, rfl⟩
        · rw [if_neg hq] at h
          cases h
          exact ⟨es', rfl⟩
    | pnull => cases h; exact ⟨es', rfl⟩
    | pint n => cases h; exact ⟨es', rfl⟩
    | pfloat q => cases h; exact ⟨es', rfl⟩
    | pstr t => cases h; exact ⟨es', rfl⟩
    | pcplx l => cases h; exact ⟨es', rfl⟩

/-- C6 (amended): whenever the payload contains two or more `<$Bis...#>`
tokens and the declared shape token itself parses without error (shape
parsing precedes BIS extraction in `process_string`), the BIS strategy
decides the outcome: `process_string` returns exactly the
`process_bisarray` classification with the shape forced to the resolved
sentinel, and `convert_data_to` returns that value with no reshape
attempted. -/
theorem c6_bis_priority (s : List Char) (shape sh : PyVal) (es : List (List Char))
    (hbis : bisFindall s = es) (hlen : 2 ≤ es.length)
    (hsh : parse_shape shape = .ok sh) :
    process_string s shape = (process_bisarray es sh).map (fun v => (v, sentinel)) ∧
    convert_data_to (.pstr s) shape = process_bisarray es sh := by
  match es, hlen with
  | e1 :: rest, hl2 =>
    have h1 : process_string s shape =
        match process_bisarray (e1 :: rest) sh with
        | .error e => .error e
        | .ok v => .ok (v, sentinel) := by
      unfold process_string process_string_core
      rw [hsh, hbis]
    constructor
    · rw [h1]
      cases process_bisarray (e1 :: rest) sh <;> rfl
    · rw [convert_data_to_pstr, h1]
      cases hpb : process_bisarray (e1 :: rest) sh with
      | error e => rfl
      | ok v =>
        obtain ⟨ys, rfl⟩ := process_bisarray_two_plist (e1 :: rest) sh v hl2 hpb
        rfl

/-- Witness for C6 at a concrete two-token payload with a parseable
declared shape. -/
theorem c6_witness :
    convert_data_to (.pstr "<$BisA#> <$BisB#>".toList) (.pstr "(9, 9)".toList) =
      process_bisarray ["$BisA".toList, "$BisB".toList] (.plist [.pint 9, .pint 9]) :=
  (c6_bis_priority "<$BisA#> <$BisB#>".toList (.pstr "(9, 9)".toList)
    (.plist [.pint 9, .pint 9]) ["$BisA".toList, "$BisB".toList]
    (by decide) (by decide) (by decide)).2

lemma npFlattenList_scalars (xs : List PyVal) (h : ∀ c ∈ xs, isNumScalar c = true) :
    npFlattenList xs = xs := by
  induction xs with
  | nil => rfl
  | cons x t ih =>
    have hx := h x (by simp)
    have hflat : npFlatten x = [x] := by
      cases x <;> simp [isNumScalar] at hx <;> rfl
    rw [npFlattenList, hflat, ih (fun c hc => h c (by simp [hc]))]
    rfl

lemma npShapeOfList_scalars (xs : List PyVal) (h : ∀ c ∈ xs, isNumScalar c = true) :
    npShapeOfList xs = .ok (List.replicate xs.length []) := by
  induction xs with
  | nil => rfl
  | cons x t ih =>
    have hx := h x (by simp)
    have hsh : npShapeOf x = .ok [] := by
      cases x <;> simp [isNumScalar] at hx <;> rfl
    rw [npShapeOfList, hsh, ih (fun c hc => h c (by simp [hc]))]
    rfl

lemma npShapeOf_scalars (xs : List PyVal) (h : ∀ c ∈ xs, isNumScalar c = true) :
    ∃ shp, npShapeOf (.plist xs) = .ok shp := by
  rw [npShapeOf, npShapeOfList_scalars xs h]
  cases xs with
  | nil => exact ⟨[0], rfl⟩
  | cons x t =>
    refine ⟨(x :: t).length :: [], ?_⟩
    rw [List.length_cons, List.replicate_succ]
    have hall : ((List.replicate t.length ([] : List Nat)).all
        fun s => decide (s = [])) = true := by
      rw [List.all_eq_true]
      intro s hs
      simpa using List.eq_of_mem_replicate hs
    show (if ((List.replicate t.length ([] : List Nat)).all
        fun s => decide (s = [])) = true then
          Except.ok ((x :: t).length :: ([] : List Nat))
        else Except.error PyErr.valueError) = _
    rw [if_pos hall]
    simp

lemma dedupAux_all_mem {α : Type} [DecidableEq α] :
    ∀ (l seen : List α), (∀ p ∈ l, p ∈ seen) → dedupAux seen l = [] := by
  intro l
  induction l with
  | nil => intro seen _; rfl
  | cons a t ih =>
    intro seen h
    rw [dedupAux, if_pos (h a (by simp))]
    exact ih seen (fun p hp => h p (by simp [hp]))

lemma dedupFirst_all_eq {α : Type} [DecidableEq α] (l : List α) (x : α)
    (hne : l ≠ []) (hall : ∀ p ∈ l, p = x) : dedupFirst l = [x] := by
  match l, hne with
  | a :: r, _ =>
    have ha : a = x := hall a (by simp)
    subst ha
    show dedupAux [] (a :: r) = [a]
    rw [dedupAux, if_neg (by simp)]
    rw [dedupAux_all_mem r [a] (fun p hp => by simp [hall p (by simp [hp])])]

/-- C4: repeat-notation expansion. General clause: when every
`@<count>*(<number>)` pattern found in the payload is the same single
pattern `@c*(t)` with a digit count and a parseable number, the clean-up
replaces every occurrence of that pattern text by `count` space-separated
copies of `str(float(number))`. Concrete clause (spec §8.3): payload
`"@3*(0)"` expands before further parsing into three numeric zero
entries, yielding `[0.0, 0.0, 0.0]` with no declared shape. -/
theorem c4_repeat_expansion :
    (∀ (data c t : List Char) (cnt : Int) (rep : Rat),
      atFindall data ≠ [] →
      (∀ p ∈ atFindall data, p = (c, t)) →
      pyInt c = some cnt →
      pyFloat t = some rep →
      clean_up_elements_in_array data =
        .ok (listReplace data ('@' :: c ++ '*' :: '(' :: t ++ [')'])
          (List.intercalate [' '] (List.replicate cnt.toNat (floatRepr rep))))) ∧
    convert_data_to (.pstr "@3*(0)".toList) sentinel =
      .ok (.plist [.pfloat (mkRat 0 1), .pfloat (mkRat 0 1), .pfloat (mkRat 0 1)]) := by
  constructor
  · intro data c t cnt rep hne hall hc hrep
    unfold clean_up_elements_in_array
    rw [dedupFirst_all_eq (atFindall data) (c, t) hne hall]
    rw [List.foldlM_cons]
    rw [show pyInt (c, t).1 = some cnt from hc]
    rw [show pyFloat (c, t).2 = some rep from hrep]
    rfl
  · decide

/-- Witness for C4's general clause at the concrete payload `"@3*(0)"`. -/
theorem c4_witness :
    clean_up_elements_in_array "@3*(0)".toList =
      .ok (listReplace "@3*(0)".toList "@3*(0)".toList
        (List.intercalate [' '] (List.replicate 3 (floatRepr (mkRat 0 1))))) := by
  have h := c4_repeat_expansion.1 "@3*(0)".toList "3".toList "0".toList 3 (mkRat 0 1)
    (by decide) (by decide) (by decide) (by decide)
  exact h

lemma lookupKey_upsert_self (m : List (List Char × PyVal)) (k : List Char) (v : PyVal) :
    lookupKey (upsert m k v) k = some v := by
  induction m with
  | nil => simp [upsert, lookupKey]
  | cons e r ih =>
    by_cases hk : e.1 = k
    · simp [upsert, hk, lookupKey]
    · simp only [upsert, lookupKey]
      rw [if_neg hk, lookupKey, if_neg hk]
      exact ih

lemma lookupKey_upsert_other (m : List (List Char × PyVal)) (k k' : List Char)
    (v : PyVal) (h : k' ≠ k) :
    lookupKey (upsert m k v) k' = lookupKey m k' := by
  induction m with
  | nil =>
    show lookupKey [(k, v)] k' = none
    rw [lookupKey, if_neg (fun hh => h hh.symm)]
    rfl
  | cons e r ih =>
    by_cases hk : e.1 = k
    · subst hk
      simp only [upsert, if_pos rfl, lookupKey]
      rw [if_neg (fun hh => h hh.symm), if_neg (fun hh => h hh.symm)]
    · simp only [upsert, if_neg hk, lookupKey]
      by_cases hk' : e.1 = k'
      · rw [if_pos hk', if_pos hk']
      · rw [if_neg hk', if_neg hk']
        exact ih

lemma lookupKey_upsert_isSome (m : List (List Char × PyVal)) (k k' : List Char)
    (v : PyVal) (h : (lookupKey (upsert m k v) k').isSome) :
    k' = k ∨ (lookupKey m k').isSome := by
  by_cases hk : k' = k
  · exact .inl hk
  · rw [lookupKey_upsert_other m k k' v hk] at h
    exact .inr h

lemma zip_tail_fst : ∀ (l : List Nat), (l.zip l.tail).map Prod.fst = l.dropLast := by
  intro l
  induction l with
  | nil => rfl
  | cons a t ih =>
    cases t with
    | nil => rfl
    | cons b r =>
      have hz : (a :: b :: r).zip (a :: b :: r).tail =
          (a, b) :: ((b :: r).zip (b :: r).tail) := rfl
      rw [hz, List.map_cons, ih]
      rfl

lemma setParamAux_keys (params : List Record) (contents : List (List Char)) :
    ∀ (pairs : List (Nat × Nat)) (hdr prm H P : List (List Char × PyVal)),
      setParamAux params contents pairs hdr prm = .ok (H, P) →
      ∀ k, ((lookupKey H k).isSome ∨ (lookupKey P k).isSome) →
        ((lookupKey hdr k).isSome ∨ (lookupKey prm k).isSome) ∨
        ∃ ab ∈ pairs, ∃ kind value, lookupAddr params ab.1 = some (kind, k, value) := by
  intro pairs
  induction pairs with
  | nil =>
    intro hdr prm H P h k hk
    cases h
    exact .inl hk
  | cons ab rest ih =>
    intro hdr prm H P h k hk
    obtain ⟨a, b⟩ := ab
    unfold setParamAux at h
    cases hst : setStep params contents a b with
    | error e => rw [hst] at h; cases h
    | ok kv =>
      obtain ⟨kind, key, v⟩ := kv
      rw [hst] at h
      have hkey : ∃ value0, lookupAddr params a = some (kind, key, value0) := by
        unfold setStep at hst
        split at hst
        · cases hst
        · next dtype key0 value0 heq =>
          split at hst
          · cases hst
          · split at hst
            · split at hst
              · cases hst
              · cases hst
                exact ⟨value0, heq⟩
            · cases hst
              exact ⟨value0, heq⟩
      obtain ⟨value0, hla⟩ := hkey
      cases kind with
      | parameter =>
        rcases ih hdr (upsert prm key v) H P h k hk with hin | hrest
        · rcases hin with hh | hp
          · exact .inl (.inl hh)
          · rcases lookupKey_upsert_isSome prm key k v hp with rfl | hp'
            · exact .inr ⟨(a, b), by simp, .parameter, value0, hla⟩
            · exact .inl (.inr hp')
        · obtain ⟨ab', hab', kind', value', hl⟩ := hrest
          exact .inr ⟨ab', by simp [hab'], kind', value', hl⟩
      | header =>
        rcases ih (upsert hdr key v) prm H P h k hk with hin | hrest
        · rcases hin with hh | hp
          · rcases lookupKey_upsert_isSome hdr key k v hh with rfl | hh'
            · exact .inr ⟨(a, b), by simp, .header, value0, hla⟩
            · exact .inl (.inl hh')
          · exact .inl (.inr hp)
        · obtain ⟨ab', hab', kind', value', hl⟩ := hrest
          exact .inr ⟨ab', by simp [hab'], kind', value', hl⟩

/-- C7: the map-construction loop runs only over consecutive address
pairs from `addresses[:-1]`: every key present in the header or
parameter map comes from a record whose address lies in
`addresses[:-1]`; the final discovered record's line is only ever a
right boundary and is never independently emitted. -/
theorem c7_pairs_from_dropLast (sl : List (List Char))
    (H P : List (List Char × PyVal))
    (h : paramBuild sl = .ok (H, P)) (k : List Char)
    (hk : (lookupKey H k).isSome ∨ (lookupKey P k).isSome) :
    ∃ a ∈ (load_param sl).2.dropLast, ∃ kind value,
      lookupAddr (load_param sl).1 a = some (kind, k, value) := by
  rcases hlp : load_param sl with ⟨ps, adr⟩
  have hpb : setParamAux ps sl (adr.zip adr.tail) [] [] = .ok (H, P) := by
    unfold paramBuild set_param at h
    rw [hlp] at h
    exact h
  rcases setParamAux_keys ps sl (adr.zip adr.tail) [] [] H P hpb k hk with habs | hfound
  · simp [lookupKey] at habs
  · obtain ⟨ab, hab, kind, value, hl⟩ := hfound
    refine ⟨ab.1, ?_, kind, value, hl⟩
    show ab.1 ∈ adr.dropLast
    rw [← zip_tail_fst adr]
    exact List.mem_map_of_mem Prod.fst hab

/-- Witness for C7: a two-record set; the key of the first record is in
the header map and its address is in `addresses[:-1]`. -/
theorem c7_witness :
    ∃ a ∈ (load_param ["##A=1".toList, "##B=2".toList]).2.dropLast,
      ∃ kind value,
        lookupAddr (load_param ["##A=1".toList, "##B=2".toList]).1 a =
          some (kind, "A".toList, value) :=
  c7_pairs_from_dropLast ["##A=1".toList, "##B=2".toList]
    [("A".toList, .pint 1)] [] (by decide) "A".toList (.inl (by decide))

lemma setStep_of_header_record (params : List Record) (contents : List (List Char))
    (a b : Nat) (key value : List Char)
    (hla : lookupAddr params a = some (.header, key, value))
    (kind : PKind) (key0 : List Char) (v : PyVal)
    (h : setStep params contents a b = .ok (kind, key0, v)) :
    kind = .header ∧ key0 = key ∧
      ∃ shape, process_contents contents a (b - a) value = .ok (v, shape) := by
  unfold setStep at h
  rw [hla] at h
  replace h : (match process_contents contents a (b - a) value with
      | Except.error e => (Except.error e : Except PyErr (PKind × List Char × PyVal))
      | Except.ok (data, shape) => Except.ok (PKind.header, key, data)) =
      Except.ok (kind, key0, v) := h
  cases hpc : process_contents contents a (b - a) value with
  | error e => rw [hpc] at h; cases h
  | ok dsh =>
    obtain ⟨data, shape⟩ := dsh
    rw [hpc] at h
    cases h
    exact ⟨rfl, rfl, shape, rfl⟩

lemma setStep_header_record_exists (params : List Record) (contents : List (List Char))
    (a b : Nat) (key : List Char) (v : PyVal)
    (h : setStep params contents a b = .ok (.header, key, v)) :
    ∃ value, lookupAddr params a = some (.header, key, value) := by
  unfold setStep at h
  split at h
  · cases h
  · next dtype key0 value0 heq =>
    split at h
    · cases h
    · split at h
      · split at h
        · cases h
        · cases h
      · cases h
        exact ⟨value0, heq⟩

lemma setParamAux_header_stable (params : List Record) (contents : List (List Char)) :
    ∀ (pairs : List (Nat × Nat)) (hdr prm H P : List (List Char × PyVal)),
      setParamAux params contents pairs hdr prm = .ok (H, P) →
      ∀ k, (∀ ab ∈ pairs, ∀ v', lookupAddr params ab.1 ≠ some (.header, k, v')) →
        lookupKey H k = lookupKey hdr k := by
  intro pairs
  induction pairs with
  | nil =>
    intro hdr prm H P h k _
    cases h
    rfl
  | cons ab rest ih =>
    intro hdr prm H P h k hno
    obtain ⟨a, b⟩ := ab
    unfold setParamAux at h
    cases hst : setStep params contents a b with
    | error e => rw [hst] at h; cases h
    | ok kv =>
      obtain ⟨kind, key, v⟩ := kv
      rw [hst] at h
      cases kind with
      | parameter =>
        exact ih hdr (upsert prm key v) H P h k
          (fun ab' hab' v' => hno ab' (by simp [hab']) v')
      | header =>
        have hkk : key ≠ k := by
          obtain ⟨value0, hla⟩ := setStep_header_record_exists params contents a b key v hst
          intro hkey
          subst hkey
          exact hno (a, b) (by simp) value0 hla
        have := ih (upsert hdr key v) prm H P h k
          (fun ab' hab' v' => hno ab' (by simp [hab']) v')
        rw [this, lookupKey_upsert_other hdr key k v (fun hh => hkk hh.symm)]

lemma setParamAux_header_emit (params : List Record) (contents : List (List Char)) :
    ∀ (pre : List (Nat × Nat)) (a b : Nat) (post : List (Nat × Nat))
      (hdr prm H P : List (List Char × PyVal)) (key value : List Char),
      setParamAux params contents (pre ++ (a, b) :: post) hdr prm = .ok (H, P) →
      lookupAddr params a = some (.header, key, value) →
      (∀ ab ∈ post, ∀ v', lookupAddr params ab.1 ≠ some (.header, key, v')) →
      ∃ data shape, process_contents contents a (b - a) value = .ok (data, shape) ∧
        lookupKey H key = some data := by
  intro pre
  induction pre with
  | nil =>
    intro a b post hdr prm H P key value h hla hpost
    rw [List.nil_append] at h
    unfold setParamAux at h
    cases hst : setStep params contents a b with
    | error e => rw [hst] at h; cases h
    | ok kv =>
      obtain ⟨kind, key0, v⟩ := kv
      rw [hst] at h
      obtain ⟨hkind, hkey0, shape, hpc⟩ :=
        setStep_of_header_record params contents a b key value hla kind key0 v hst
      subst hkind
      rw [hkey0] at h
      have hstable := setParamAux_header_stable params contents post
        (upsert hdr key v) prm H P h key hpost
      exact ⟨v, shape, hpc, by rw [hstable, lookupKey_upsert_self]⟩
  | cons p pre' ih =>
    intro a b post hdr prm H P key value h hla hpost
    rw [List.cons_append] at h
    obtain ⟨a', b'⟩ := p
    unfold setParamAux at h
    cases hst : setStep params contents a' b' with
    | error e => rw [hst] at h; cases h
    | ok kv =>
      obtain ⟨kind, key0, v⟩ := kv
      rw [hst] at h
      cases kind with
      | parameter => exact ih a b post hdr (upsert prm key0 v) H P key value h hla hpost
      | header => exact ih a b post (upsert hdr key0 v) prm H P key value h hla hpost

/-- C2 (amended): a Header record's stored value is exactly the
`_process_contents` payload — Header records never pass through shape
parsing or array reconstruction — and when the record has a multi-line
payload whose comment-stripped space-join is nonempty, that stored value
is the raw joined string. (Single-line and empty-payload Header values
do pass through the scalar classifier — see the counterexample.) -/
theorem c2_header_payload_stored (sl : List (List Char))
    (H P : List (List Char × PyVal)) (pre post : List (Nat × Nat)) (a b : Nat)
    (key value : List Char)
    (h : paramBuild sl = .ok (H, P))
    (hsplit : ((load_param sl).2.zip (load_param sl).2.tail) = pre ++ (a, b) :: post)
    (hrec : lookupAddr (load_param sl).1 a = some (.header, key, value))
    (hpost : ∀ ab ∈ post, ∀ v', lookupAddr (load_param sl).1 ab.1 ≠ some (.header, key, v')) :
    ∃ data shape, process_contents sl a (b - a) value = .ok (data, shape) ∧
      lookupKey H key = some data ∧
      (1 < b - a → joinedPayload sl a (b - a) ≠ [] →
        data = .pstr (joinedPayload sl a (b - a))) := by
  rcases hlp : load_param sl with ⟨ps, adr⟩
  rw [hlp] at hsplit hrec hpost
  have hpb : setParamAux ps sl (adr.zip adr.tail) [] [] = .ok (H, P) := by
    unfold paramBuild set_param at h
    rw [hlp] at h
    exact h
  rw [hsplit] at hpb
  obtain ⟨data, shape, hpc, hlk⟩ :=
    setParamAux_header_emit ps sl pre a b post [] [] H P key value hpb hrec hpost
  refine ⟨data, shape, hpc, hlk, ?_⟩
  intro hgap hne
  unfold process_contents at hpc
  rw [if_pos hgap] at hpc
  rw [if_pos hne] at hpc
  cases hpc
  rfl

/-- Witness for C2: a Header record with multi-line payload stores the
raw joined string. -/
theorem c2_witness :
    ∃ data shape,
      process_contents ["##HDR=( 2, 2 )".toList, "1 2 3 4".toList, "##END=".toList]
        0 2 "( 2, 2 )".toList = .ok (data, shape) ∧
      lookupKey [("HDR".toList, PyVal.pstr "1 2 3 4".toList)] "HDR".toList = some data ∧
      (1 < 2 - 0 →
        joinedPayload ["##HDR=( 2, 2 )".toList, "1 2 3 4".toList, "##END=".toList] 0 (2 - 0) ≠ [] →
        data = .pstr (joinedPayload
          ["##HDR=( 2, 2 )".toList, "1 2 3 4".toList, "##END=".toList] 0 (2 - 0))) :=
  c2_header_payload_stored
    ["##HDR=( 2, 2 )".toList, "1 2 3 4".toList, "##END=".toList]
    [("HDR".toList, PyVal.pstr "1 2 3 4".toList)] [] [] [] 0 2
    "HDR".toList "( 2, 2 )".toList
    (by decide) (by decide) (by decide) (by simp)

lemma isDigit_ne_of (c d : Char) (hc : c.isDigit = true) (hd : d.isDigit = false) :
    c ≠ d := by
  intro h
  rw [h, hd] at hc
  cases hc

lemma dropLead_eq (c : Char) (t : List Char) : dropLead c (c :: t) = t := by
  rw [dropLead, if_pos rfl]

lemma dropLead_ne (c a : Char) (t : List Char) (h : a ≠ c) :
    dropLead c (a :: t) = a :: t := by
  rw [dropLead, if_neg h]

lemma digitsDotDigits_iff (r0 : List Char) :
    digitsDotDigits r0 = true ↔
      ∃ d1 d2 : List Char, d1 ≠ [] ∧ d2 ≠ [] ∧ (∀ c ∈ d1, c.isDigit) ∧
        (∀ c ∈ d2, c.isDigit) ∧ r0 = d1 ++ '.' :: d2 := by
  constructor
  · intro h
    unfold digitsDotDigits at h
    rw [List.span_eq_take_drop] at h
    replace h : (match r0.takeWhile Char.isDigit, r0.dropWhile Char.isDigit with
      | _ :: _, '.' :: r2 => !r2.isEmpty && r2.all Char.isDigit
      | _, _ => false) = true := h
    cases ht : r0.takeWhile Char.isDigit with
    | nil => rw [ht] at h; cases h
    | cons c cs =>
      cases hd : r0.dropWhile Char.isDigit with
      | nil => rw [ht, hd] at h; cases h
      | cons b r2 =>
        rw [ht, hd] at h
        by_cases hb : b = '.'
        · subst hb
          replace h : (!r2.isEmpty && r2.all Char.isDigit) = true := h
          refine ⟨c :: cs, r2, by simp, ?_, ?_, ?_, ?_⟩
          · rcases Bool.and_eq_true_iff.mp h with ⟨h1, _⟩
            simpa using h1
          · intro x hx
            exact List.mem_takeWhile_imp (ht ▸ hx)
          · intro x hx
            rcases Bool.and_eq_true_iff.mp h with ⟨_, h2⟩
            exact List.all_eq_true.mp h2 x hx
          · conv_lhs => rw [← List.takeWhile_append_dropWhile (p := Char.isDigit) (l := r0)]
            rw [ht, hd]
        · exfalso
          revert h
          simp [hb]
  · rintro ⟨d1, d2, h1, h2, hd1, hd2, rfl⟩
    have ht : (d1 ++ '.' :: d2).takeWhile Char.isDigit = d1 :=
      takeWhile_all_append (fun x hx => hd1 x hx) '.' d2 (by decide)
    have hdp : (d1 ++ '.' :: d2).dropWhile Char.isDigit = '.' :: d2 :=
      dropWhile_all_append (fun x hx => hd1 x hx) '.' d2 (by decide)
    unfold digitsDotDigits
    rw [List.span_eq_take_drop, ht, hdp]
    match d1, h1 with
    | c :: cs, _ =>
      show (!d2.isEmpty && d2.all Char.isDigit) = true
      rw [Bool.and_eq_true_iff]
      constructor
      · cases d2 with
        | nil => exact absurd rfl h2
        | cons x xs => rfl
      · rw [List.all_eq_true]
        exact hd2

lemma matchFloat_iff (t : List Char) : matchFloat t = true ↔ specFloat t := by
  unfold matchFloat specFloat
  constructor
  · intro h
    cases t with
    | nil => cases h
    | cons a t' =>
      by_cases ha : a = '-'
      · subst ha
        rw [dropLead_eq] at h
        obtain ⟨d1, d2, h1, h2, hd1, hd2, heq⟩ := (digitsDotDigits_iff t').mp h
        exact ⟨['-'], d1, d2, .inr rfl, h1, h2, hd1, hd2, by rw [heq]; rfl⟩
      · rw [dropLead_ne '-' a t' ha] at h
        obtain ⟨d1, d2, h1, h2, hd1, hd2, heq⟩ := (digitsDotDigits_iff (a :: t')).mp h
        exact ⟨[], d1, d2, .inl rfl, h1, h2, hd1, hd2, by rw [heq]; rfl⟩
  · rintro ⟨sgn, d1, d2, hsgn, h1, h2, hd1, hd2, rfl⟩
    have hcore : digitsDotDigits (d1 ++ '.' :: d2) = true :=
      (digitsDotDigits_iff _).mpr ⟨d1, d2, h1, h2, hd1, hd2, rfl⟩
    rcases hsgn with rfl | rfl
    · rw [List.nil_append]
      match d1, h1, hd1 with
      | c :: cs, _, hd1 =>
        rw [List.cons_append, dropLead_ne '-' c _
          (isDigit_ne_of c '-' (hd1 c (by simp)) (by decide))]
        exact hcore
    · show digitsDotDigits (dropLead '-' ('-' :: (d1 ++ '.' :: d2))) = true
      rw [dropLead_eq]
      exact hcore

lemma engCore_iff (r0 : List Char) :
    engCore r0 = true ↔
      ∃ m sgn2 x : List Char, m ≠ [] ∧ (∀ c ∈ m, digitDot c) ∧
        (sgn2 = [] ∨ sgn2 = ['-']) ∧ x ≠ [] ∧ (∀ c ∈ x, digitDot c) ∧
        r0 = m ++ 'e' :: (sgn2 ++ x) := by
  constructor
  · intro h
    unfold engCore at h
    rw [List.span_eq_take_drop] at h
    replace h : (match r0.takeWhile digitDot, r0.dropWhile digitDot with
      | _ :: _, 'e' :: r2 =>
        !(dropLead '-' r2).isEmpty && (dropLead '-' r2).all digitDot
      | _, _ => false) = true := h
    cases ht : r0.takeWhile digitDot with
    | nil => rw [ht] at h; cases h
    | cons c cs =>
      cases hd : r0.dropWhile digitDot with
      | nil => rw [ht, hd] at h; cases h
      | cons b r2 =>
        rw [ht, hd] at h
        by_cases hb : b = 'e'
        · subst hb
          replace h : (!(dropLead '-' r2).isEmpty &&
            (dropLead '-' r2).all digitDot) = true := h
          have hmem : ∀ x ∈ c :: cs, digitDot x := by
            intro x hx
            exact List.mem_takeWhile_imp (ht ▸ hx)
          have hr0 : r0 = (c :: cs) ++ 'e' :: r2 := by
            conv_lhs => rw [← List.takeWhile_append_dropWhile (p := digitDot) (l := r0)]
            rw [ht, hd]
          rcases Bool.and_eq_true_iff.mp h with ⟨hne, hall⟩
          cases r2 with
          | nil => cases hne
          | cons b2 r3 =>
            by_cases hb2 : b2 = '-'
            · subst hb2
              rw [dropLead_eq] at hne hall
              exact ⟨c :: cs, ['-'], r3, by simp, hmem, .inr rfl,
                by simpa using hne, List.all_eq_true.mp hall, by rw [hr0]; rfl⟩
            · rw [dropLead_ne '-' b2 r3 hb2] at hne hall
              exact ⟨c :: cs, [], b2 :: r3, by simp, hmem, .inl rfl,
                by simp, List.all_eq_true.mp hall, by rw [hr0]; rfl⟩
        · exfalso
          revert h
          simp [hb]
  · rintro ⟨m, sgn2, x, hm, hmd, hsgn2, hx, hxd, rfl⟩
    have ht : (m ++ 'e' :: (sgn2 ++ x)).takeWhile digitDot = m :=
      takeWhile_all_append (fun c hc => hmd c hc) 'e' (sgn2 ++ x) (by decide)
    have hdp : (m ++ 'e' :: (sgn2 ++ x)).dropWhile digitDot = 'e' :: (sgn2 ++ x) :=
      dropWhile_all_append (fun c hc => hmd c hc) 'e' (sgn2 ++ x) (by decide)
    unfold engCore
    rw [List.span_eq_take_drop, ht, hdp]
    have hdl : dropLead '-' (sgn2 ++ x) = x := by
      rcases hsgn2 with rfl | rfl
      · rw [List.nil_append]
        match x, hx, hxd with
        | c :: cs, _, hxd =>
          exact dropLead_ne '-' c cs (fun hh => by
            have := hxd c (by simp)
            rw [hh] at this
            cases this)
      · rfl
    match m, hm with
    | c :: cs, _ =>
      show (!(dropLead '-' (sgn2 ++ x)).isEmpty &&
        (dropLead '-' (sgn2 ++ x)).all digitDot) = true
      rw [hdl, Bool.and_eq_true_iff]
      refine ⟨?_, List.all_eq_true.mpr hxd⟩
      cases x with
      | nil => exact absurd rfl hx
      | cons y ys => rfl

lemma matchEng_iff (t : List Char) : matchEng t = true ↔ specEng t := by
  unfold matchEng specEng
  constructor
  · intro h
    cases t with
    | nil => cases h
    | cons a t' =>
      by_cases ha : a = '-'
      · subst ha
        rw [dropLead_eq] at h
        obtain ⟨m, sgn2, x, h1, h2, h3, h4, h5, heq⟩ := (engCore_iff t').mp h
        exact ⟨['-'], m, sgn2, x, .inr rfl, h1, h2, h3, h4, h5, by rw [heq]; rfl⟩
      · rw [dropLead_ne '-' a t' ha] at h
        obtain ⟨m, sgn2, x, h1, h2, h3, h4, h5, heq⟩ := (engCore_iff (a :: t')).mp h
        exact ⟨[], m, sgn2, x, .inl rfl, h1, h2, h3, h4, h5, by rw [heq]; rfl⟩
  · rintro ⟨sgn, m, sgn2, x, hsgn, h1, h2, h3, h4, h5, rfl⟩
    have hcore : engCore (m ++ 'e' :: (sgn2 ++ x)) = true :=
      (engCore_iff _).mpr ⟨m, sgn2, x, h1, h2, h3, h4, h5, rfl⟩
    rcases hsgn with rfl | rfl
    · rw [List.nil_append]
      match m, h1, h2 with
      | c :: cs, _, h2 =>
        rw [List.cons_append, dropLead_ne '-' c _ (fun hh => by
          have := h2 c (by simp)
          rw [hh] at this
          cases this)]
        exact hcore
    · show engCore (dropLead '-' ('-' :: (m ++ 'e' :: (sgn2 ++ x)))) = true
      rw [dropLead_eq]
      exact hcore

lemma matchInt_iff (t : List Char) : matchInt t = true ↔ specInt t := by
  unfold specInt
  constructor
  · intro h
    unfold matchInt at h
    rw [List.span_eq_take_drop] at h
    replace h : (!(t.dropWhile (fun c => c = '-')).isEmpty &&
      (t.dropWhile (fun c => c = '-')).all Char.isDigit) = true := h
    rcases Bool.and_eq_true_iff.mp h with ⟨hne, hall⟩
    refine ⟨(t.takeWhile (fun c => (c = '-' : Bool))).length,
      t.dropWhile (fun c => c = '-'), ?_, ?_, ?_⟩
    · intro hh
      rw [hh] at hne
      cases hne
    · exact List.all_eq_true.mp hall
    · conv_lhs => rw [← List.takeWhile_append_dropWhile
        (p := fun c => (c = '-' : Bool)) (l := t)]
      congr 1
      have hmem : ∀ x ∈ t.takeWhile (fun c => (c = '-' : Bool)), x = '-' := by
        intro x hx
        simpa using List.mem_takeWhile_imp hx
      exact List.eq_replicate_of_mem hmem
  · rintro ⟨k, d, hne, hd, rfl⟩
    have hrep : ∀ x ∈ List.replicate k '-', (fun c => (c = '-' : Bool)) x = true := by
      intro x hx
      simp [List.eq_of_mem_replicate hx]
    match d, hne with
    | c :: cs, _ =>
      have hc : (fun x => (x = '-' : Bool)) c = false := by
        have := hd c (by simp)
        simp [isDigit_ne_of c '-' this (by decide)]
      have ht := takeWhile_all_append (p := fun c => (c = '-' : Bool)) hrep c cs hc
      have hdp := dropWhile_all_append (p := fun c => (c = '-' : Bool)) hrep c cs hc
      unfold matchInt
      rw [List.span_eq_take_drop, ht, hdp]
      show (!(c :: cs).isEmpty && (c :: cs).all Char.isDigit) = true
      rw [Bool.and_eq_true_iff]
      exact ⟨rfl, List.all_eq_true.mpr hd⟩

lemma signOf_neg (t : List Char) : signOf ('-' :: t) = (-1, t) := by
  show (if '-' = '-' then ((-1 : Int), t) else if '-' = '+' then ((1 : Int), t)
    else ((1 : Int), '-' :: t)) = ((-1 : Int), t)
  rw [if_pos rfl]

lemma signOf_digit (c : Char) (t : List Char) (hc : c.isDigit = true) :
    signOf (c :: t) = (1, c :: t) := by
  show (if c = '-' then ((-1 : Int), t) else if c = '+' then ((1 : Int), t)
    else ((1 : Int), c :: t)) = ((1 : Int), c :: t)
  rw [if_neg (isDigit_ne_of c '-' hc (by decide)),
    if_neg (isDigit_ne_of c '+' hc (by decide))]

lemma pyInt_digits (d : List Char) (hne : d ≠ []) (hd : ∀ c ∈ d, c.isDigit) :
    pyInt d = some ((natOfDigits d : Int)) := by
  match d, hne with
  | c :: cs, _ =>
    have hall : (c :: cs).all Char.isDigit = true :=
      List.all_eq_true.mpr (fun x hx => hd x hx)
    unfold pyInt
    rw [signOf_digit c cs (hd c (by simp))]
    simp [hall]

lemma pyInt_neg_digits (d : List Char) (hne : d ≠ []) (hd : ∀ c ∈ d, c.isDigit) :
    pyInt ('-' :: d) = some (-(natOfDigits d : Int)) := by
  match d, hne with
  | c :: cs, _ =>
    have hall : (c :: cs).all Char.isDigit = true :=
      List.all_eq_true.mpr (fun x hx => hd x hx)
    unfold pyInt
    rw [signOf_neg]
    simp [hall]

lemma pyInt_double_minus (r : List Char) : pyInt ('-' :: '-' :: r) = none := by
  unfold pyInt
  rw [signOf_neg]
  have h0 : ('-').isDigit = false := by decide
  simp [h0]

lemma fracOf_dot (t : List Char) : fracOf ('.' :: t) = t.takeWhile Char.isDigit := rfl

lemma restOf_dot (t : List Char) : restOf ('.' :: t) = t.dropWhile Char.isDigit := rfl

lemma hasDotOf_dot (t : List Char) : hasDotOf ('.' :: t) = true := rfl

lemma pyFloatExp_nil (mant : Int) (fl : Nat) :
    pyFloatExp mant fl [] = some (mkRat mant (10 ^ fl)) := rfl

lemma pyFloat_dot (d1 d2 : List Char) (h1 : d1 ≠ []) (hd1 : ∀ c ∈ d1, c.isDigit)
    (hd2 : ∀ c ∈ d2, c.isDigit) :
    pyFloat (d1 ++ '.' :: d2) =
      some (mkRat (natOfDigits (d1 ++ d2)) (10 ^ d2.length)) := by
  match d1, h1 with
  | c :: cs, _ =>
    have hts : ((c :: cs) ++ '.' :: d2).takeWhile Char.isDigit = c :: cs :=
      takeWhile_all_append (fun x hx => hd1 x hx) '.' d2 (by decide)
    have hds : ((c :: cs) ++ '.' :: d2).dropWhile Char.isDigit = '.' :: d2 :=
      dropWhile_all_append (fun x hx => hd1 x hx) '.' d2 (by decide)
    rw [List.cons_append] at hts hds
    have ht2 : d2.takeWhile Char.isDigit = d2 :=
      List.takeWhile_eq_self_iff.mpr hd2
    have hd2d : d2.dropWhile Char.isDigit = [] :=
      List.dropWhile_eq_nil_iff.mpr hd2
    unfold pyFloat
    dsimp only
    rw [List.cons_append, signOf_digit c (cs ++ '.' :: d2) (hd1 c (by simp))]
    dsimp only
    rw [hts, hds, fracOf_dot, restOf_dot, hasDotOf_dot, ht2, hd2d]
    rw [if_neg (by simp)]
    rw [pyFloatExp_nil, one_mul]

lemma pyFloat_neg_dot (d1 d2 : List Char) (h1 : d1 ≠ []) (hd1 : ∀ c ∈ d1, c.isDigit)
    (hd2 : ∀ c ∈ d2, c.isDigit) :
    pyFloat ('-' :: (d1 ++ '.' :: d2)) =
      some (mkRat (-(natOfDigits (d1 ++ d2) : Int)) (10 ^ d2.length)) := by
  match d1, h1 with
  | c :: cs, _ =>
    have hts : ((c :: cs) ++ '.' :: d2).takeWhile Char.isDigit = c :: cs :=
      takeWhile_all_append (fun x hx => hd1 x hx) '.' d2 (by decide)
    have hds : ((c :: cs) ++ '.' :: d2).dropWhile Char.isDigit = '.' :: d2 :=
      dropWhile_all_append (fun x hx => hd1 x hx) '.' d2 (by decide)
    have ht2 : d2.takeWhile Char.isDigit = d2 :=
      List.takeWhile_eq_self_iff.mpr hd2
    have hd2d : d2.dropWhile Char.isDigit = [] :=
      List.dropWhile_eq_nil_iff.mpr hd2
    unfold pyFloat
    dsimp only
    rw [signOf_neg]
    dsimp only
    rw [hts, hds, fracOf_dot, restOf_dot, hasDotOf_dot, ht2, hd2d]
    rw [if_neg (by simp)]
    rw [pyFloatExp_nil, neg_one_mul]

lemma pyFloat_of_specFloat (t : List Char) (h : specFloat t) :
    ∃ q, pyFloat t = some q := by
  obtain ⟨sgn, d1, d2, hsgn, h1, h2, hd1, hd2, rfl⟩ := h
  rcases hsgn with rfl | rfl
  · exact ⟨mkRat (natOfDigits (d1 ++ d2)) (10 ^ d2.length), by
      rw [List.nil_append]
      exact pyFloat_dot d1 d2 h1 hd1 hd2⟩
  · exact ⟨mkRat (-(natOfDigits (d1 ++ d2) : Int)) (10 ^ d2.length), by
      show pyFloat ('-' :: (d1 ++ '.' :: d2)) = _
      exact pyFloat_neg_dot d1 d2 h1 hd1 hd2⟩

lemma isEmpty_false_of_ne_nil (l : List Char) (h : l ≠ []) : l.isEmpty = false := by
  cases l with
  | nil => exact absurd rfl h
  | cons a t => rfl

lemma convert_string_to_eq (cs : List Char) :
    convert_string_to cs =
      (if (classifierCore cs).isEmpty then Except.ok PyVal.pnull
       else if matchFloat (classifierCore cs) || matchEng (classifierCore cs) then
         match pyFloat (classifierCore cs) with
         | some q => Except.ok (PyVal.pfloat q)
         | none => Except.error PyErr.valueError
       else if matchInt (classifierCore cs) then
         match pyInt (classifierCore cs) with
         | some n => Except.ok (PyVal.pint n)
         | none => Except.error PyErr.valueError
       else Except.ok (PyVal.pstr (classifierCore cs))) := rfl

/-- C3 (amended): the classifier follows the ordered algorithm — strip,
unwrap a full angle-bracket pair, then: empty yields Null; a decimal
float (optional sign, digits, dot, digits) yields a Float; a string of
`ptrn_engnotation` shape (optional sign, digit-or-dot run, lower-case
`e`, optional sign, digit-or-dot run) reaches `float()`, which returns a
Float or raises ValueError (the pattern admits repeated dots); a string
of `ptrn_integer` shape (`k` leading minus signs then digits) yields an
Int for `k = 0`, a negative Int for `k = 1`, and raises ValueError for
`k ≥ 2` (the pattern admits repeated signs but `int()` rejects them);
anything else degrades to a String. The classifier is therefore total
but NOT never-failing, and the sign/dot grammar of the middle branches
is wider than the spec states. -/
theorem c3_classifier (cs : List Char) :
    (classifierCore cs = [] → convert_string_to cs = .ok .pnull) ∧
    (specFloat (classifierCore cs) →
      ∃ q, convert_string_to cs = .ok (.pfloat q)) ∧
    (specEng (classifierCore cs) →
      (∃ q, convert_string_to cs = .ok (.pfloat q)) ∨
        convert_string_to cs = .error .valueError) ∧
    (¬ specFloat (classifierCore cs) → ¬ specEng (classifierCore cs) →
      ∀ k d, d ≠ [] → (∀ c ∈ d, c.isDigit) →
        classifierCore cs = List.replicate k '-' ++ d →
        (k = 0 → convert_string_to cs = .ok (.pint (natOfDigits d))) ∧
        (k = 1 → convert_string_to cs = .ok (.pint (-(natOfDigits d : Int)))) ∧
        (2 ≤ k → convert_string_to cs = .error .valueError)) ∧
    (¬ specFloat (classifierCore cs) → ¬ specEng (classifierCore cs) →
      ¬ specInt (classifierCore cs) → classifierCore cs ≠ [] →
        convert_string_to cs = .ok (.pstr (classifierCore cs))) := by
  refine ⟨?_, ?_, ?_, ?_, ?_⟩
  · intro h
    rw [convert_string_to_eq, h]
    rfl
  · intro h
    have mf := (matchFloat_iff (classifierCore cs)).mpr h
    obtain ⟨q, hq⟩ := pyFloat_of_specFloat _ h
    have hne : classifierCore cs ≠ [] := by
      obtain ⟨sgn, d1, d2, _, h1, _, _, _, heq⟩ := h
      rw [heq]
      simp
    refine ⟨q, ?_⟩
    rw [convert_string_to_eq, isEmpty_false_of_ne_nil _ hne,
      if_neg Bool.false_ne_true, mf, Bool.true_or, if_pos rfl, hq]
  · intro h
    have me := (matchEng_iff (classifierCore cs)).mpr h
    have hne : classifierCore cs ≠ [] := by
      obtain ⟨sgn, m, sgn2, x, _, h1, _, _, _, _, heq⟩ := h
      rw [heq]
      simp
    have hconv : convert_string_to cs =
        (match pyFloat (classifierCore cs) with
         | some q => Except.ok (PyVal.pfloat q)
         | none => Except.error PyErr.valueError) := by
      rw [convert_string_to_eq, isEmpty_false_of_ne_nil _ hne,
        if_neg Bool.false_ne_true, me, Bool.or_true, if_pos rfl]
    cases hpf : pyFloat (classifierCore cs) with
    | none =>
      right
      rw [hconv, hpf]
    | some q =>
      left
      exact ⟨q, by rw [hconv, hpf]⟩
  · intro hnf hne k d hd hdig heq
    have mfF : matchFloat (classifierCore cs) = false := by
      cases hmf : matchFloat (classifierCore cs) with
      | false => rfl
      | true => exact absurd ((matchFloat_iff _).mp hmf) hnf
    have meF : matchEng (classifierCore cs) = false := by
      cases hme : matchEng (classifierCore cs) with
      | false => rfl
      | true => exact absurd ((matchEng_iff _).mp hme) hne
    have hnil : classifierCore cs ≠ [] := by
      rw [heq]
      intro h0
      rcases List.append_eq_nil.mp h0 with ⟨_, h2⟩
      exact hd h2
    have hmint : matchInt (classifierCore cs) = true :=
      (matchInt_iff _).mpr ⟨k, d, hd, hdig, heq⟩
    have hconv : convert_string_to cs =
        (match pyInt (classifierCore cs) with
         | some n => Except.ok (PyVal.pint n)
         | none => Except.error PyErr.valueError) := by
      rw [convert_string_to_eq, isEmpty_false_of_ne_nil _ hnil,
        if_neg Bool.false_ne_true, mfF, meF, Bool.or_false,
        if_neg Bool.false_ne_true, hmint, if_pos rfl]
    refine ⟨?_, ?_, ?_⟩
    · intro hk
      subst hk
      rw [List.replicate_zero, List.nil_append] at heq
      rw [hconv, heq, pyInt_digits d hd hdig]
    · intro hk
      subst hk
      rw [List.replicate_one, List.singleton_append] at heq
      rw [hconv, heq, pyInt_neg_digits d hd hdig]
    · intro hk
      obtain ⟨k2, rfl⟩ : ∃ k2, k = k2 + 2 := ⟨k - 2, by omega⟩
      have h21 : k2 + 2 = (k2 + 1) + 1 := rfl
      rw [h21, List.replicate_succ, List.replicate_succ, List.cons_append,
        List.cons_append] at heq
      rw [hconv, heq, pyInt_double_minus]
  · intro hnf hne hni hnil
    have mfF : matchFloat (classifierCore cs) = false := by
      cases hmf : matchFloat (classifierCore cs) with
      | false => rfl
      | true => exact absurd ((matchFloat_iff _).mp hmf) hnf
    have meF : matchEng (classifierCore cs) = false := by
      cases hme : matchEng (classifierCore cs) with
      | false => rfl
      | true => exact absurd ((matchEng_iff _).mp hme) hne
    have miF : matchInt (classifierCore cs) = false := by
      cases hmi : matchInt (classifierCore cs) with
      | false => rfl
      | true => exact absurd ((matchInt_iff _).mp hmi) hni
    rw [convert_string_to_eq, isEmpty_false_of_ne_nil _ hnil,
      if_neg Bool.false_ne_true, mfF, meF, Bool.or_false,
      if_neg Bool.false_ne_true, miF, if_neg Bool.false_ne_true]

/-- Witness for C3 at the concrete input `"-3"`: the integer branch with
one leading minus sign returns `Int (-3)`. -/
theorem c3_witness : convert_string_to ['-', '3'] = .ok (.pint (-3)) := by
  have hnf : ¬ specFloat (classifierCore ['-', '3']) := fun hs =>
    absurd ((matchFloat_iff _).mpr hs) (by decide)
  have hne : ¬ specEng (classifierCore ['-', '3']) := fun hs =>
    absurd ((matchEng_iff _).mpr hs) (by decide)
  have h2 := ((c3_classifier ['-', '3']).2.2.2.1 hnf hne 1 ['3']
    (by decide) (by decide) (by decide)).2.1 rfl
  exact h2

-- ### braceScan equation lemmas

lemma braceScan_nil (b : Option (List Char)) :
    braceScan b [] = ([], flushCand b, flushCand b) := rfl

lemma braceScan_open (b : Option (List Char)) (r : List Char) :
    braceScan b ('(' :: r) =
      ((braceScan (some []) r).1,
       flushCand b ++ (braceScan (some []) r).2.1,
       flushCand b ++ (braceScan (some []) r).2.2) := rfl

lemma braceScan_close_none (r : List Char) :
    braceScan none (')' :: r) =
      ((braceScan none r).1,
       ')' :: (braceScan none r).2.1,
       ')' :: (braceScan none r).2.2) := rfl

lemma braceScan_close_some (inner : List Char) (r : List Char) :
    braceScan (some inner) (')' :: r) =
      (inner.reverse :: (braceScan none r).1,
       (braceScan none r).2.1,
       inner.reverse ++ (braceScan none r).2.2) := rfl

lemma braceScan_other_none (c : Char) (r : List Char) (h1 : c ≠ '(') (h2 : c ≠ ')') :
    braceScan none (c :: r) =
      ((braceScan none r).1,
       c :: (braceScan none r).2.1,
       c :: (braceScan none r).2.2) := by
  rw [braceScan]
  · exact h1
  · exact h2

lemma braceScan_other_some (inner : List Char) (c : Char) (r : List Char)
    (h1 : c ≠ '(') (h2 : c ≠ ')') :
    braceScan (some inner) (c :: r) = braceScan (some (c :: inner)) r := by
  rw [braceScan]
  · exact h1
  · exact h2

-- ### mhAux equation lemmas

lemma mhAux_nil (st : List Nat) (acc : Nat) :
    mhAux [] st acc = st.foldl (fun a h => max a h) acc := rfl

lemma mhAux_open (r : List Char) (st : List Nat) (acc : Nat) :
    mhAux ('(' :: r) st acc = mhAux r (0 :: st) acc := rfl

lemma mhAux_close_nil (r : List Char) (acc : Nat) :
    mhAux (')' :: r) [] acc = mhAux r [] acc := rfl

lemma mhAux_close_one (r : List Char) (h : Nat) (acc : Nat) :
    mhAux (')' :: r) [h] acc = mhAux r [] (max acc (h + 1)) := rfl

lemma mhAux_close_cons (r : List Char) (h p : Nat) (rs : List Nat) (acc : Nat) :
    mhAux (')' :: r) (h :: p :: rs) acc = mhAux r (max p (h + 1) :: rs) acc := rfl

lemma mhAux_other (c : Char) (r : List Char) (st : List Nat) (acc : Nat)
    (h1 : c ≠ '(') (h2 : c ≠ ')') :
    mhAux (c :: r) st acc = mhAux r st acc := by
  rw [mhAux]
  · exact h1
  · exact h2

-- ### depthAux equation lemmas

lemma depthAux_open (r : List Char) (c best : Nat) :
    depthAux ('(' :: r) c best = depthAux r (c + 1) (max best (c + 1)) := rfl

lemma depthAux_close (r : List Char) (c best : Nat) :
    depthAux (')' :: r) c best = depthAux r (c - 1) best := rfl

lemma depthAux_other (a : Char) (r : List Char) (c best : Nat)
    (h1 : a ≠ '(') (h2 : a ≠ ')') :
    depthAux (a :: r) c best = depthAux r c best := by
  rw [depthAux]
  · exact h1
  · exact h2

-- ### fold lemmas

lemma foldl_max_ge_init (S : List Nat) (acc : Nat) :
    acc ≤ S.foldl (fun a h => max a h) acc := by
  induction S generalizing acc with
  | nil => exact le_refl acc
  | cons h t ih => exact le_trans (le_max_left acc h) (ih (max acc h))

lemma foldl_max_ge_mem (S : List Nat) :
    ∀ (acc e : Nat), e ∈ S → e ≤ S.foldl (fun a h => max a h) acc := by
  induction S with
  | nil => intro acc e he; cases he
  | cons h t ih =>
    intro acc e he
    rcases List.mem_cons.mp he with rfl | hm
    · exact le_trans (le_max_right acc e) (foldl_max_ge_init t (max acc e))
    · exact ih (max acc h) e hm

lemma foldl_max_le (S : List Nat) (acc B : Nat) (h1 : acc ≤ B)
    (h2 : ∀ e ∈ S, e ≤ B) :
    S.foldl (fun a h => max a h) acc ≤ B := by
  induction S generalizing acc with
  | nil => exact h1
  | cons h t ih =>
    exact ih (max acc h) (max_le h1 (h2 h (by simp))) (fun e he => h2 e (by simp [he]))

lemma foldl_max_sub (S : List Nat) (acc : Nat) :
    (S.map (fun h => h - 1)).foldl (fun a h => max a h) (acc - 1) =
      S.foldl (fun a h => max a h) acc - 1 := by
  induction S generalizing acc with
  | nil => rfl
  | cons h t ih =>
    show (t.map (fun h => h - 1)).foldl (fun a h => max a h) (max (acc - 1) (h - 1)) = _
    rw [show max (acc - 1) (h - 1) = max acc h - 1 by omega]
    exact ih (max acc h)

lemma foldl_max_zeros (n : Nat) (acc : Nat) :
    (List.replicate n 0).foldl (fun a h => max a h) acc = acc := by
  induction n generalizing acc with
  | zero => rfl
  | succ m ih =>
    rw [List.replicate_succ]
    show (List.replicate m 0).foldl (fun a h => max a h) (max acc 0) = acc
    rw [Nat.max_zero]
    exact ih acc

-- ### mhAux basic facts

lemma mhAux_skip (xs : List Char) (hx : ∀ x ∈ xs, x ≠ '(' ∧ x ≠ ')')
    (r : List Char) (st : List Nat) (acc : Nat) :
    mhAux (xs ++ r) st acc = mhAux r st acc := by
  induction xs generalizing st acc with
  | nil => rfl
  | cons c t ih =>
    obtain ⟨h1, h2⟩ := hx c (by simp)
    rw [List.cons_append, mhAux_other c (t ++ r) st acc h1 h2]
    exact ih (fun x hx2 => hx x (by simp [hx2])) st acc

lemma mhAux_ge (cs : List Char) :
    ∀ (st : List Nat) (acc : Nat),
      acc ≤ mhAux cs st acc ∧ ∀ e ∈ st, e ≤ mhAux cs st acc := by
  induction cs with
  | nil =>
    intro st acc
    exact ⟨foldl_max_ge_init st acc, fun e he => foldl_max_ge_mem st acc e he⟩
  | cons c r ih =>
    intro st acc
    by_cases h1 : c = '('
    · subst h1
      rw [mhAux_open]
      exact ⟨(ih (0 :: st) acc).1, fun e he => (ih (0 :: st) acc).2 e (by simp [he])⟩
    · by_cases h2 : c = ')'
      · subst h2
        match st with
        | [] =>
          rw [mhAux_close_nil]
          exact ⟨(ih [] acc).1, by simp⟩
        | [h] =>
          rw [mhAux_close_one]
          refine ⟨le_trans (le_max_left acc (h + 1)) (ih [] (max acc (h + 1))).1, ?_⟩
          intro e he
          rcases List.mem_singleton.mp he with rfl
          exact le_trans (le_trans (Nat.le_succ e) (le_max_right acc (e + 1)))
            (ih [] (max acc (e + 1))).1
        | h :: p :: rs =>
          rw [mhAux_close_cons]
          refine ⟨(ih (max p (h + 1) :: rs) acc).1, ?_⟩
          intro e he
          rcases List.mem_cons.mp he with rfl | he2
          · exact le_trans (le_trans (Nat.le_succ e) (le_max_right p (e + 1)))
              ((ih (max p (e + 1) :: rs) acc).2 _ (by simp))
          · rcases List.mem_cons.mp he2 with rfl | he3
            · exact le_trans (le_max_left e (h + 1))
                ((ih (max e (h + 1) :: rs) acc).2 _ (by simp))
            · exact (ih (max p (h + 1) :: rs) acc).2 e (by simp [he3])
      · rw [mhAux_other c r st acc h1 h2]
        exact ih st acc

-- ### no-match and match characterisation

lemma noMatch_mhAux (cs : List Char) :
    ∀ (b : Option (List Char)) (n : Nat) (acc : Nat),
      (braceScan b cs).1 = [] →
      mhAux cs (match b with
        | none => ([] : List Nat)
        | some _ => List.replicate (n + 1) 0) acc = acc := by
  induction cs with
  | nil =>
    intro b n acc _
    match b with
    | none => rfl
    | some inner =>
      rw [mhAux_nil]
      exact foldl_max_zeros (n + 1) acc
  | cons c r ih =>
    intro b n acc hms
    by_cases h1 : c = '('
    · subst h1
      rw [braceScan_open] at hms
      match b with
      | none =>
        rw [mhAux_open]
        exact ih (some []) 0 acc hms
      | some inner =>
        rw [mhAux_open, ← List.replicate_succ]
        exact ih (some []) (n + 1) acc hms
    · by_cases h2 : c = ')'
      · subst h2
        match b with
        | none =>
          rw [braceScan_close_none] at hms
          rw [mhAux_close_nil]
          exact ih none 0 acc hms
        | some inner =>
          rw [braceScan_close_some] at hms
          exact (List.cons_ne_nil _ _ hms).elim
      · match b with
        | none =>
          rw [braceScan_other_none c r h1 h2] at hms
          rw [mhAux_other c r _ acc h1 h2]
          exact ih none 0 acc hms
        | some inner =>
          rw [braceScan_other_some inner c r h1 h2] at hms
          rw [mhAux_other c r _ acc h1 h2]
          exact ih (some (c :: inner)) n acc hms

lemma matches_imp_pos (cs : List Char) :
    ∀ (b : Option (List Char)) (S : List Nat) (acc : Nat),
      (braceScan b cs).1 ≠ [] →
      1 ≤ mhAux cs (match b with
        | none => S
        | some _ => 0 :: S) acc := by
  induction cs with
  | nil =>
    intro b S acc hms
    rw [braceScan_nil] at hms
    exact absurd rfl hms
  | cons c r ih =>
    intro b S acc hms
    by_cases h1 : c = '('
    · subst h1
      rw [braceScan_open] at hms
      match b with
      | none =>
        rw [mhAux_open]
        exact ih (some []) S acc hms
      | some inner =>
        rw [mhAux_open]
        exact ih (some []) (0 :: S) acc hms
    · by_cases h2 : c = ')'
      · subst h2
        match b with
        | none =>
          rw [braceScan_close_none] at hms
          match S with
          | [] =>
            rw [mhAux_close_nil]
            exact ih none [] acc hms
          | [h] =>
            rw [mhAux_close_one]
            exact le_trans (le_trans (Nat.succ_le_succ (Nat.zero_le h))
              (le_max_right acc (h + 1))) (mhAux_ge r [] (max acc (h + 1))).1
          | h :: p :: rs =>
            rw [mhAux_close_cons]
            exact le_trans (le_trans (Nat.succ_le_succ (Nat.zero_le h))
              (le_max_right p (h + 1)))
              ((mhAux_ge r (max p (h + 1) :: rs) acc).2 _ (by simp))
        | some inner =>
          match S with
          | [] =>
            rw [mhAux_close_one]
            exact le_trans (le_max_right acc 1) (mhAux_ge r [] (max acc (0 + 1))).1
          | p :: rs =>
            rw [mhAux_close_cons]
            exact le_trans (le_max_right p 1)
              ((mhAux_ge r (max p (0 + 1) :: rs) acc).2 _ (by simp))
      · match b with
        | none =>
          rw [braceScan_other_none c r h1 h2] at hms
          rw [mhAux_other c r S acc h1 h2]
          exact ih none S acc hms
        | some inner =>
          rw [braceScan_other_some inner c r h1 h2] at hms
          rw [mhAux_other c r (0 :: S) acc h1 h2]
          exact ih (some (c :: inner)) S acc hms

-- ### the bisimulation: one removal pass lowers the forest height by one

lemma mhAux_rm (cs : List Char) :
    ∀ (b : Option (List Char)) (S : List Nat) (acc : Nat),
      (b = none → 1 ≤ S.headD 1) →
      (∀ inner, b = some inner → ∀ x ∈ inner, x ≠ '(' ∧ x ≠ ')') →
      mhAux (braceScan b cs).2.1 (S.map (fun h => h - 1)) (acc - 1) =
        mhAux cs (match b with
          | none => S
          | some _ => 0 :: S) acc - 1 := by
  induction cs with
  | nil =>
    intro b S acc hnone hsome
    match b with
    | none =>
      show mhAux [] (S.map (fun h => h - 1)) (acc - 1) = mhAux [] S acc - 1
      rw [mhAux_nil, mhAux_nil]
      exact foldl_max_sub S acc
    | some inner =>
      show mhAux ('(' :: inner.reverse) (S.map (fun h => h - 1)) (acc - 1) =
        mhAux [] (0 :: S) acc - 1
      rw [mhAux_open, ← List.append_nil inner.reverse,
        mhAux_skip inner.reverse
          (fun x hx => hsome inner rfl x (List.mem_reverse.mp hx))]
      rw [mhAux_nil, mhAux_nil]
      show (S.map (fun h => h - 1)).foldl (fun a h => max a h) (max (acc - 1) 0) =
        S.foldl (fun a h => max a h) (max acc 0) - 1
      rw [Nat.max_zero, Nat.max_zero]
      exact foldl_max_sub S acc
  | cons c r ih =>
    intro b S acc hnone hsome
    by_cases h1 : c = '('
    · subst h1
      match b with
      | none =>
        show mhAux ([] ++ (braceScan (some []) r).2.1) (S.map (fun h => h - 1))
          (acc - 1) = mhAux ('(' :: r) S acc - 1
        rw [List.nil_append, mhAux_open]
        exact ih (some []) S acc (by simp) (by simp)
      | some inner =>
        show mhAux (('(' :: inner.reverse) ++ (braceScan (some []) r).2.1)
          (S.map (fun h => h - 1)) (acc - 1) = mhAux ('(' :: r) (0 :: S) acc - 1
        rw [List.cons_append, mhAux_open, mhAux_open,
          mhAux_skip inner.reverse
            (fun x hx => hsome inner rfl x (List.mem_reverse.mp hx))]
        exact ih (some []) (0 :: S) acc (by simp) (by simp)
    · by_cases h2 : c = ')'
      · subst h2
        match b with
        | none =>
          match S with
          | [] =>
            show mhAux (')' :: (braceScan none r).2.1) [] (acc - 1) =
              mhAux (')' :: r) [] acc - 1
            rw [mhAux_close_nil, mhAux_close_nil]
            exact ih none [] acc (by simp) (by simp)
          | [h] =>
            have hh : 1 ≤ h := hnone rfl
            show mhAux (')' :: (braceScan none r).2.1) [h - 1] (acc - 1) =
              mhAux (')' :: r) [h] acc - 1
            rw [mhAux_close_one, mhAux_close_one,
              show max (acc - 1) ((h - 1) + 1) = max acc (h + 1) - 1 by omega]
            exact ih none [] (max acc (h + 1)) (by simp) (by simp)
          | h :: p :: rs =>
            have hh : 1 ≤ h := hnone rfl
            show mhAux (')' :: (braceScan none r).2.1)
              ((h - 1) :: (p - 1) :: rs.map (fun x => x - 1)) (acc - 1) =
              mhAux (')' :: r) (h :: p :: rs) acc - 1
            rw [mhAux_close_cons, mhAux_close_cons,
              show max (p - 1) ((h - 1) + 1) = max p (h + 1) - 1 by omega]
            exact ih none (max p (h + 1) :: rs) acc
              (fun _ => le_trans (Nat.succ_le_succ (Nat.zero_le h))
                (le_max_right p (h + 1)))
              (by simp)
        | some inner =>
          match S with
          | [] =>
            show mhAux (braceScan none r).2.1 [] (acc - 1) =
              mhAux (')' :: r) [0] acc - 1
            rw [mhAux_close_one,
              show max acc (0 + 1) = max acc 1 from rfl]
            rw [show acc - 1 = max acc 1 - 1 by omega]
            exact ih none [] (max acc 1) (by simp) (by simp)
          | p :: rs =>
            show mhAux (braceScan none r).2.1
              ((p - 1) :: rs.map (fun x => x - 1)) (acc - 1) =
              mhAux (')' :: r) (0 :: p :: rs) acc - 1
            rw [mhAux_close_cons,
              show max p (0 + 1) = max p 1 from rfl]
            rw [show (p : Nat) - 1 = max p 1 - 1 by omega]
            exact ih none (max p 1 :: rs) acc
              (fun _ => le_max_right p 1) (by simp)
      · match b with
        | none =>
          rw [braceScan_other_none c r h1 h2]
          show mhAux (c :: (braceScan none r).2.1) (S.map (fun h => h - 1))
            (acc - 1) = mhAux (c :: r) S acc - 1
          rw [mhAux_other c _ _ _ h1 h2, mhAux_other c r S acc h1 h2]
          exact ih none S acc hnone (by simp)
        | some inner =>
          rw [braceScan_other_some inner c r h1 h2]
          show mhAux (braceScan (some (c :: inner)) r).2.1
            (S.map (fun h => h - 1)) (acc - 1) = mhAux (c :: r) (0 :: S) acc - 1
          rw [mhAux_other c r (0 :: S) acc h1 h2]
          refine ih (some (c :: inner)) S acc (by simp) ?_
          intro inner2 heq x hx
          injection heq with heq2
          subst heq2
          rcases List.mem_cons.mp hx with rfl | hx2
          · exact ⟨h1, h2⟩
          · exact hsome inner rfl x hx2

lemma mh_rm (s : List Char) : mh (arrRemove s) = mh s - 1 :=
  mhAux_rm s none [] 0 (fun _ => le_refl 1) (fun _ h => nomatch h)

-- ### pass count

lemma passesF_zero (d : List Char) : passesF 0 d = 0 := rfl

lemma passesF_succ (fuel : Nat) (d : List Char) :
    passesF (fuel + 1) d =
      match arrFindall d with
      | [] => 0
      | _ :: _ => 1 + passesF fuel (arrRemove d) := rfl

lemma passesF_min (fuel : Nat) : ∀ s : List Char, passesF fuel s = min fuel (mh s) := by
  induction fuel with
  | zero =>
    intro s
    rw [passesF_zero]
    omega
  | succ f ih =>
    intro s
    rw [passesF_succ]
    cases hm : arrFindall s with
    | nil =>
      have h0 : mh s = 0 := noMatch_mhAux s none 0 0 hm
      show (0 : Nat) = min (f + 1) (mh s)
      omega
    | cons m ms =>
      have hpos : 1 ≤ mh s :=
        matches_imp_pos s none [] 0 (by show arrFindall s ≠ []; rw [hm]; simp)
      show 1 + passesF f (arrRemove s) = min (f + 1) (mh s)
      rw [ih (arrRemove s), mh_rm s]
      omega

-- ### height is bounded by literal nesting depth

lemma stackBnd_mono (S : List Nat) :
    ∀ (d b b' : Nat), b ≤ b' → stackBnd S d b → stackBnd S d b' := by
  induction S with
  | nil => intro d b b' _ _; trivial
  | cons h t ih =>
    intro d b b' hbb hsb
    exact ⟨le_trans hsb.1 hbb, ih (d - 1) b b' hbb hsb.2⟩

lemma stackBnd_le_mem (S : List Nat) :
    ∀ (d b : Nat), stackBnd S d b → ∀ e ∈ S, e ≤ b := by
  induction S with
  | nil => intro d b _ e he; cases he
  | cons h t ih =>
    intro d b hsb e he
    rcases List.mem_cons.mp he with rfl | he2
    · exact le_trans (Nat.le_add_right e d) hsb.1
    · exact ih (d - 1) b hsb.2 e he2

lemma mh_le_depthAux (cs : List Char) :
    ∀ (st : List Nat) (acc c best : Nat),
      st.length ≤ c → c ≤ best → acc ≤ best → stackBnd st st.length best →
      mhAux cs st acc ≤ depthAux cs c best := by
  induction cs with
  | nil =>
    intro st acc c best _ hcb hab hsb
    exact foldl_max_le st acc best hab (stackBnd_le_mem st st.length best hsb)
  | cons a r ih =>
    intro st acc c best hlen hcb hab hsb
    by_cases h1 : a = '('
    · subst h1
      rw [mhAux_open, depthAux_open]
      have hlen2 : (0 :: st).length ≤ c + 1 := by
        simp only [List.length_cons]
        omega
      refine ih (0 :: st) acc (c + 1) (max best (c + 1)) hlen2
        (le_max_right best (c + 1)) (le_trans hab (le_max_left best (c + 1))) ?_
      refine ⟨le_trans (by simp only [List.length_cons]; omega :
        0 + (0 :: st).length ≤ c + 1) (le_max_right best (c + 1)), ?_⟩
      exact stackBnd_mono st st.length best (max best (c + 1))
        (le_max_left best (c + 1)) hsb
    · by_cases h2 : a = ')'
      · subst h2
        rw [depthAux_close]
        match st, hlen, hsb with
        | [], hlen, hsb =>
          rw [mhAux_close_nil]
          exact ih [] acc (c - 1) best (Nat.zero_le _) (le_trans (Nat.sub_le c 1) hcb)
            hab trivial
        | [h], hlen, hsb =>
          rw [mhAux_close_one]
          refine ih [] (max acc (h + 1)) (c - 1) best (Nat.zero_le _)
            (le_trans (Nat.sub_le c 1) hcb) ?_ trivial
          have hb1 : h + 1 ≤ best := by
            have := hsb.1
            simpa using this
          exact max_le hab hb1
        | h :: p :: rs, hlen, hsb =>
          rw [mhAux_close_cons]
          obtain ⟨hb1, hb2, hb3⟩ := hsb
          refine ih (max p (h + 1) :: rs) acc (c - 1) best ?_
            (le_trans (Nat.sub_le c 1) hcb) hab ?_
          · simp only [List.length_cons] at hlen ⊢
            omega
          · refine ⟨?_, ?_⟩
            · simp only [List.length_cons] at hb1 hb2 ⊢
              omega
            · exact hb3
      · rw [mhAux_other a r st acc h1 h2, depthAux_other a r c best h1 h2]
        exact ih st acc c best hlen hcb hab hsb

lemma mh_le_nestDepth (s : List Char) : mh s ≤ nestDepth s :=
  mh_le_depthAux s [] 0 0 0 (le_refl 0) (le_refl 0) (le_refl 0) trivial

-- ### nesting depth is bounded by the bracket count

lemma parenCount_paren (c : Char) (r : List Char) (h : isParen c = true) :
    parenCount (c :: r) = parenCount r + 1 := by
  unfold parenCount
  rw [List.filter_cons, if_pos h]
  rfl

lemma parenCount_other (c : Char) (r : List Char) (h : isParen c = false) :
    parenCount (c :: r) = parenCount r := by
  unfold parenCount
  rw [List.filter_cons, if_neg (by simp [h])]

lemma depthAux_le_parenCount (cs : List Char) :
    ∀ (c best : Nat), depthAux cs c best ≤ max best (c + parenCount cs) := by
  induction cs with
  | nil =>
    intro c best
    exact le_max_left best (c + parenCount [])
  | cons a r ih =>
    intro c best
    by_cases h1 : a = '('
    · subst h1
      rw [depthAux_open, parenCount_paren '(' r rfl]
      refine le_trans (ih (c + 1) (max best (c + 1))) ?_
      refine max_le (max_le (le_max_left _ _)
        (le_trans (by omega) (le_max_right best (c + (parenCount r + 1))))) ?_
      exact le_trans (by omega) (le_max_right best (c + (parenCount r + 1)))
    · by_cases h2 : a = ')'
      · subst h2
        rw [depthAux_close, parenCount_paren ')' r rfl]
        refine le_trans (ih (c - 1) best) ?_
        exact max_le (le_max_left _ _)
          (le_trans (by omega) (le_max_right best (c + (parenCount r + 1))))
      · rw [depthAux_other a r c best h1 h2,
          parenCount_other a r (by simp [isParen, h1, h2])]
        exact ih c best

lemma nestDepth_le_parenCount (s : List Char) : nestDepth s ≤ parenCount s := by
  have h := depthAux_le_parenCount s 0 0
  simpa using h

-- ### each pass strictly shrinks the text when a match exists

lemma braceScan_rem_len (cs : List Char) :
    ∀ b : Option (List Char),
      ((braceScan b cs).1 = [] →
        (braceScan b cs).2.1.length = (flushCand b).length + cs.length) ∧
      ((braceScan b cs).1 ≠ [] →
        (braceScan b cs).2.1.length + 2 ≤ (flushCand b).length + cs.length) := by
  induction cs with
  | nil =>
    intro b
    rw [braceScan_nil]
    exact ⟨fun _ => by simp, fun h => absurd rfl h⟩
  | cons c r ih =>
    intro b
    by_cases h1 : c = '('
    · subst h1
      rw [braceScan_open]
      have hfl : (flushCand (some ([] : List Char))).length = 1 := rfl
      constructor
      · intro hms
        have := (ih (some [])).1 hms
        rw [List.length_append, this, hfl]
        simp
        omega
      · intro hms
        have := (ih (some [])).2 hms
        rw [List.length_append]
        simp only [List.length_cons]
        omega
    · by_cases h2 : c = ')'
      · subst h2
        match b with
        | none =>
          rw [braceScan_close_none]
          constructor
          · intro hms
            have := (ih none).1 hms
            simp only [List.length_cons, this]
            omega
          · intro hms
            have := (ih none).2 hms
            simp only [List.length_cons]
            simp only [flushCand, List.length_nil] at this ⊢
            omega
        | some inner =>
          rw [braceScan_close_some]
          have hfl : (flushCand (some inner)).length = inner.length + 1 := by
            simp [flushCand]
          constructor
          · intro hms
            exact (List.cons_ne_nil _ _ hms).elim
          · intro _
            rcases Classical.em ((braceScan none r).1 = []) with hms2 | hms2
            · have := (ih none).1 hms2
              simp only [flushCand, List.length_nil] at this
              rw [hfl]
              simp only [List.length_cons]
              omega
            · have := (ih none).2 hms2
              simp only [flushCand, List.length_nil] at this
              rw [hfl]
              simp only [List.length_cons]
              omega
      · match b with
        | none =>
          rw [braceScan_other_none c r h1 h2]
          constructor
          · intro hms
            have := (ih none).1 hms
            simp only [List.length_cons, this]
            omega
          · intro hms
            have := (ih none).2 hms
            simp only [List.length_cons]
            simp only [flushCand, List.length_nil] at this ⊢
            omega
        | some inner =>
          rw [braceScan_other_some inner c r h1 h2]
          have hfl : (flushCand (some (c :: inner))).length = inner.length + 2 := by
            simp [flushCand]
          have hfl2 : (flushCand (some inner)).length = inner.length + 1 := by
            simp [flushCand]
          constructor
          · intro hms
            have := (ih (some (c :: inner))).1 hms
            rw [this, hfl, hfl2]
            simp only [List.length_cons]
            omega
          · intro hms
            have := (ih (some (c :: inner))).2 hms
            rw [hfl] at this
            rw [hfl2]
            simp only [List.length_cons]
            omega

/-- C8: the `process_complexarray` loop terminates.  The number of passes
actually performed (`pcxPasses`, the pass counter run with the
`parenCount`-based fuel of the embedding) equals the matched-bracket
forest height `mh`, which is bounded by the maximum literal
bracket-nesting depth `nestDepth` of the input; the pass count is stable
under any fuel of at least `mh` passes, so the fuel never runs out; and
whenever a pass finds a match, the working text strictly shrinks. -/
theorem c8_pass_bound (s : List Char) :
    pcxPasses s = mh s ∧
    mh s ≤ nestDepth s ∧
    (∀ fuel, mh s ≤ fuel → passesF fuel s = mh s) ∧
    (arrFindall s ≠ [] → (arrRemove s).length < s.length) := by
  have hd : mh s ≤ nestDepth s := mh_le_nestDepth s
  have hp : nestDepth s ≤ parenCount s := nestDepth_le_parenCount s
  refine ⟨?_, hd, ?_, ?_⟩
  · show passesF (parenCount s + 1) s = mh s
    rw [passesF_min (parenCount s + 1) s]
    omega
  · intro fuel hf
    rw [passesF_min fuel s]
    omega
  · intro hne
    have h2 : (arrRemove s).length + 2 ≤ (flushCand none).length + s.length :=
      (braceScan_rem_len s none).2 hne
    have h3 : (flushCand none).length = 0 := rfl
    omega

/-- Witness for C8 at the concrete input `"((1))"`: a pass strictly
shrinks the text, and five units of fuel already reach the fixed pass
count `mh`. -/
theorem c8_witness :
    ((arrRemove "((1))".toList).length < "((1))".toList.length) ∧
    passesF 5 "((1))".toList = mh "((1))".toList :=
  ⟨(c8_pass_bound "((1))".toList).2.2.2 (by decide),
   (c8_pass_bound "((1))".toList).2.2.1 5 (by decide)⟩

end Brk
